import Mathlib

/-!
Verification of the EDINET report-QA core of the chat-orchestrator
repository.  Each Python module of `backend/skills/edinet_report_qa/` that
the checked claims touch is embedded shallowly below, keeping the source
structure and names; theorems about the claims follow the definitions.
-/

namespace EdinetQA

/-! ### Python-level string primitives shared by the embedded modules -/

/-- Character set stripped by Python `str.strip()` (ASCII whitespace
fragment; the inputs exercised here contain no exotic Unicode spaces). -/
def pyWhitespace (c : Char) : Bool :=
  c = ' ' || c = '\t' || c = '\n' || c = '\r' || c = '\x0b' || c = '\x0c'

/-- Python `s.strip()` on a character list. -/
def stripChars (s : List Char) : List Char :=
  ((s.dropWhile pyWhitespace).reverse.dropWhile pyWhitespace).reverse

/-- Python `s.strip()`. -/
def pyStrip (s : String) : String := String.mk (stripChars s.data)

/-- Python `"".join(chunks)`. -/
def pyJoin : List String → String
  | [] => ""
  | s :: rest => s ++ pyJoin rest

theorem str_append_empty (s : String) : s ++ "" = s := by
  cases s with
  | mk data => show String.mk (data ++ []) = String.mk data; rw [List.append_nil]

theorem str_empty_append (s : String) : "" ++ s = s := by
  cases s with
  | mk data => rfl

/-- `"".join` of an optionally skipped chunk (`if chunk:
chunks.append(chunk)`) is plain concatenation: the skipped chunk is the
empty string. -/
theorem pyJoin_optChunk (p : String) (rest : List String) :
    pyJoin ((if p ≠ "" then [p] else []) ++ rest) = p ++ pyJoin rest := by
  by_cases h : p = ""
  · simp [h, pyJoin, str_empty_append]
  · simp [h, pyJoin]

/-- Python `s.lower()` (ASCII fragment; the Japanese characters the
sources handle are unaffected by lowercasing). -/
def pyLower (s : String) : String := String.mk (s.data.map Char.toLower)

/-- `pat` is a prefix of `s` (Python `s.startswith(pat)` / regex anchor). -/
def listStartsWith : List Char → List Char → Bool
  | [], _ => true
  | _ :: _, [] => false
  | p :: ps, c :: cs => p = c && listStartsWith ps cs

/-- `needle` occurs contiguously in `hay` (Python `needle in hay`). -/
def listHasInfix (hay needle : List Char) : Bool :=
  match hay with
  | [] => needle.isEmpty
  | _ :: rest => listStartsWith needle hay || listHasInfix rest needle

/-- Python `needle in hay` on strings. -/
def pyInStr (needle hay : String) : Bool := listHasInfix hay.data needle.data

/-- Left-to-right non-overlapping replacement scan of Python
`str.replace`.  The fuel argument (instantiated with the string length,
which the scan can never exceed since every step consumes at least one
character) keeps the recursion structural so that the function reduces
definitionally. -/
def replaceFuel (pat repl : List Char) : Nat → List Char → List Char
  | 0, s => s
  | _ + 1, [] => []
  | n + 1, c :: rest =>
    if pat ≠ [] && listStartsWith pat (c :: rest) then
      repl ++ replaceFuel pat repl n (List.drop (pat.length - 1) rest)
    else c :: replaceFuel pat repl n rest

/-- Python `s.replace(pat, repl)` (for non-empty `pat`, the only form the
sources use). -/
def pyReplace (s pat repl : String) : String :=
  String.mk (replaceFuel pat.data repl.data s.data.length s.data)

/-- The fragment of Unicode NFKC normalization
(`unicodedata.normalize("NFKC", ·)`) relevant to the embedded modules:
full-width ASCII folds to ASCII, the ideographic space folds to a plain
space, the parenthesized-ideograph abbreviation folds to `(株)`; other
characters are left unchanged. -/
def nfkcChar (c : Char) : List Char :=
  if c.toNat = 0x3000 then [' ']
  else if 0xFF01 ≤ c.toNat && c.toNat ≤ 0xFF5E then [Char.ofNat (c.toNat - 0xFEE0)]
  else if c.toNat = 0x3231 then ['(', '株', ')']
  else [c]

/-- NFKC normalization (fragment, see `nfkcChar`). -/
def nfkc (s : String) : String := String.mk (s.data.flatMap nfkcChar)

/-! ### Structured document extractor (`xbrl_extractor.py`)

`_collect_payload_with_continuation` walks the `continuedAt`
back-reference chain of a tagged element, guarding against cycles with a
`visited` set of continuation targets. -/

namespace Xbrl

/-- A document element as `_collect_payload_with_continuation` sees it:
the `_element_payload` rendering (element text plus serialized children)
and the `continuedAt` attribute (`none` models an absent attribute). -/
structure XElement where
  payload : String
  continuedAt : Option String
  deriving DecidableEq

/-- Number of id-index keys not yet visited: the implicit measure that
bounds the Python `while` loop. -/
def unvisitedKeys (idIndex : List (String × XElement)) (visited : List String) : Nat :=
  ((idIndex.map Prod.fst).filter (fun k => !visited.contains k)).length

theorem length_filter_mono {α : Type} (l : List α) (p q : α → Bool)
    (h : ∀ x, q x = true → p x = true) :
    (l.filter q).length ≤ (l.filter p).length := by
  induction l with
  | nil => simp
  | cons a t ih =>
    by_cases hq : q a = true
    · simp [List.filter, hq, h a hq]; omega
    · simp only [List.filter, hq]
      by_cases hp : p a = true
      · simp [hp]; omega
      · simp [hp]; omega

theorem length_filter_cons_lt (l : List String) (visited : List String) (c : String)
    (hmem : c ∈ l) (hnv : visited.contains c = false) :
    (l.filter (fun k => !((c :: visited).contains k))).length <
      (l.filter (fun k => !visited.contains k)).length := by
  induction l with
  | nil => cases hmem
  | cons a t ih =>
    have hmono : ∀ x : String,
        (fun k => !((c :: visited).contains k)) x = true →
        (fun k => !visited.contains k) x = true := by
      intro x hx
      simp only [List.contains_cons, Bool.not_eq_true', Bool.or_eq_false_iff] at hx
      simp only [Bool.not_eq_true']
      exact hx.2
    by_cases hac : a = c
    · subst hac
      have h1 : ((a :: visited).contains a) = true := by simp
      simp only [List.filter, h1, Bool.not_true, hnv, Bool.not_false]
      have := length_filter_mono t _ _ hmono
      simp only [List.length_cons]
      omega
    · have hct : c ∈ t := by
        cases hmem with
        | head => exact absurd rfl hac
        | tail _ h => exact h
      by_cases hva : visited.contains a = true
      · have h1 : ((c :: visited).contains a) = true := by
          simp only [List.contains_cons, hva, Bool.or_true]
        simp only [List.filter, h1, hva, Bool.not_true]
        exact ih hct
      · have hva' : visited.contains a = false := by simpa using hva
        have h1 : ((c :: visited).contains a) = false := by
          simp only [List.contains_cons, Bool.or_eq_false_iff]
          exact ⟨by simp [hac], hva'⟩
        simp only [List.filter, h1, Bool.not_false, hva', List.length_cons]
        have := ih hct
        omega

theorem mem_map_fst_of_lookup {l : List (String × XElement)} {c : String} {v : XElement}
    (h : List.lookup c l = some v) : c ∈ l.map Prod.fst := by
  induction l with
  | nil => simp [List.lookup] at h
  | cons a t ih =>
    rw [List.lookup] at h
    by_cases hc : c = a.1
    · simp [hc]
    · have : (c == a.1) = false := by simpa using hc
      rw [this] at h
      simp only [List.map, List.mem_cons]
      exact Or.inr (ih h)

theorem unvisitedKeys_cons_lt {idIndex : List (String × XElement)}
    {visited : List String} {c : String} {v : XElement}
    (hl : List.lookup c idIndex = some v) (hnv : visited.contains c = false) :
    unvisitedKeys idIndex (c :: visited) < unvisitedKeys idIndex visited :=
  length_filter_cons_lt _ _ _ (mem_map_fst_of_lookup hl) hnv

/-- The `while continued_at and continued_at not in visited` loop of
`_collect_payload_with_continuation`: follows the chain through the id
index, recording each target in `visited`, appending each non-empty
continuation payload, stopping on an absent/empty reference, an already
visited target, or a target missing from the index. -/
def collectLoop (idIndex : List (String × XElement)) (visited : List String) :
    Option String → List String
  | none => []
  | some c =>
    if c = "" then []
    else if hv : visited.contains c then []
    else if hs : (List.lookup c idIndex).isSome then
      let cont := (List.lookup c idIndex).get hs
      (if cont.payload ≠ "" then [cont.payload] else [])
        ++ collectLoop idIndex (c :: visited) cont.continuedAt
    else []
termination_by _ => unvisitedKeys idIndex visited
decreasing_by
  exact unvisitedKeys_cons_lt (Option.some_get hs).symm (by simpa using hv)

/-- `_collect_payload_with_continuation`: head payload (if non-empty)
followed by the chunks gathered by the continuation loop, joined and
stripped. -/
def collectPayloadWithContinuation (idIndex : List (String × XElement)) (el : XElement) : String :=
  pyStrip (pyJoin
    ((if el.payload ≠ "" then [el.payload] else []) ++ collectLoop idIndex [] el.continuedAt))

/-- Each loop iteration consumes one unvisited index key, so the chunk
list the loop can build is bounded by the number of unvisited keys. -/
theorem collectLoop_length_le (idIndex : List (String × XElement))
    (visited : List String) (c : Option String) :
    (collectLoop idIndex visited c).length ≤ unvisitedKeys idIndex visited := by
  induction visited, c using collectLoop.induct idIndex with
  | case1 visited => simp [collectLoop]
  | case2 visited => simp [collectLoop]
  | case3 visited c hc hv =>
    have hm : c ∈ visited := by simpa using hv
    rw [collectLoop]; simp [hc, hm]
  | case4 visited c hc hv hs cont ih =>
    rw [collectLoop, if_neg hc, dif_neg hv, dif_pos hs]
    simp only [List.length_append]
    have hcont : cont = (List.lookup c idIndex).get hs := rfl
    rw [hcont] at ih
    have hlt := unvisitedKeys_cons_lt (Option.some_get hs).symm (by simpa using hv)
    have hchunk : ((if ((List.lookup c idIndex).get hs).payload ≠ ""
        then [((List.lookup c idIndex).get hs).payload] else []) : List String).length ≤ 1 := by
      by_cases h : ((List.lookup c idIndex).get hs).payload = "" <;> simp [h]
    omega
  | case5 visited c hc hv hs =>
    have hm : c ∉ visited := by simpa using hv
    rw [collectLoop]; simp [hc, hm, hs]

/-- The loop's work is bounded by the size of the id index. -/
theorem collectLoop_length_le_index (idIndex : List (String × XElement))
    (visited : List String) (c : Option String) :
    (collectLoop idIndex visited c).length ≤ idIndex.length := by
  have h1 := collectLoop_length_le idIndex visited c
  have h2 : unvisitedKeys idIndex visited ≤ idIndex.length := by
    unfold unvisitedKeys
    calc ((idIndex.map Prod.fst).filter _).length
        ≤ (idIndex.map Prod.fst).length := List.length_filter_le _ _
      _ = idIndex.length := List.length_map _ _
  omega

theorem collectLoop_none (idIndex : List (String × XElement)) (visited : List String) :
    collectLoop idIndex visited none = [] := by
  rw [collectLoop]

theorem collectLoop_step (idIndex : List (String × XElement)) (visited : List String)
    (c : String) (v : XElement) (hc : c ≠ "") (hv : visited.contains c = false)
    (hl : List.lookup c idIndex = some v) :
    collectLoop idIndex visited (some c)
      = (if v.payload ≠ "" then [v.payload] else [])
          ++ collectLoop idIndex (c :: visited) v.continuedAt := by
  rw [collectLoop, if_neg hc, dif_neg (by rw [hv]; simp), dif_pos (by simp [hl])]
  simp only [hl, Option.get_some]

theorem collectLoop_visited (idIndex : List (String × XElement)) (visited : List String)
    (c : String) (hc : c ≠ "") (hv : visited.contains c = true) :
    collectLoop idIndex visited (some c) = [] := by
  rw [collectLoop, if_neg hc, dif_pos hv]

theorem str_append_assoc (a b c : String) : a ++ b ++ c = a ++ (b ++ c) := by
  cases a; cases b; cases c
  show String.mk (_ ++ _ ++ _) = String.mk (_ ++ (_ ++ _))
  rw [List.append_assoc]

end Xbrl

/-- C1: For a continuation chain A→B→C (A's `continuedAt` names B, B's
names C, C has none, both targets resolvable in the id index),
`_collect_payload_with_continuation` returns the payloads of A, B, C
concatenated in that order (the code strips outer whitespace of the
joined result); and for every index, visited set and starting reference —
cyclic chains included — the chain-following loop terminates (it is a
total function) having collected at most one chunk per id-index entry. -/
theorem continuation_chain_concat_and_bounded
    (idIndex : List (String × Xbrl.XElement)) (A B C : Xbrl.XElement) (bId cId : String)
    (hA : A.continuedAt = some bId) (hB : B.continuedAt = some cId) (hC : C.continuedAt = none)
    (hb : bId ≠ "") (hc : cId ≠ "") (hbc : bId ≠ cId)
    (hlb : List.lookup bId idIndex = some B) (hlc : List.lookup cId idIndex = some C) :
    Xbrl.collectPayloadWithContinuation idIndex A
        = pyStrip (A.payload ++ B.payload ++ C.payload)
      ∧ ∀ (idx : List (String × Xbrl.XElement)) (visited : List String) (cont : Option String),
          (Xbrl.collectLoop idx visited cont).length ≤ idx.length := by
  refine ⟨?_, fun idx visited cont => Xbrl.collectLoop_length_le_index idx visited cont⟩
  unfold Xbrl.collectPayloadWithContinuation
  rw [hA]
  rw [Xbrl.collectLoop_step idIndex [] bId B hb (by simp) hlb, hB]
  rw [Xbrl.collectLoop_step idIndex [bId] cId C hc (by simp [Ne.symm hbc]) hlc, hC]
  rw [Xbrl.collectLoop_none]
  rw [pyJoin_optChunk, pyJoin_optChunk, pyJoin_optChunk]
  show pyStrip (A.payload ++ (B.payload ++ (C.payload ++ pyJoin []))) = _
  rw [show pyJoin [] = "" from rfl, str_append_empty, ← Xbrl.str_append_assoc]

theorem continuation_chain_concat_and_bounded_witness :
    Xbrl.collectPayloadWithContinuation
        [("b", ⟨"y", some "c"⟩), ("c", ⟨"z", none⟩)] ⟨"x", some "b"⟩
      = pyStrip ("x" ++ "y" ++ "z") :=
  (continuation_chain_concat_and_bounded
    [("b", ⟨"y", some "c"⟩), ("c", ⟨"z", none⟩)]
    ⟨"x", some "b"⟩ ⟨"y", some "c"⟩ ⟨"z", none⟩ "b" "c"
    rfl rfl rfl (by decide) (by decide) (by decide) (by decide) (by decide)).1

/-- C10: For a two-element cyclic chain — A's `continuedAt` names B and
B's names A — the collected payload is A, B, A concatenated (then
stripped): the head element's payload recurs because the `visited` set
records only continuation targets, never the starting element itself. -/
theorem cyclic_chain_repeats_head_payload
    (idIndex : List (String × Xbrl.XElement)) (A B : Xbrl.XElement) (aId bId : String)
    (hA : A.continuedAt = some bId) (hB : B.continuedAt = some aId)
    (ha : aId ≠ "") (hb : bId ≠ "") (hab : aId ≠ bId)
    (hla : List.lookup aId idIndex = some A) (hlb : List.lookup bId idIndex = some B) :
    Xbrl.collectPayloadWithContinuation idIndex A
      = pyStrip (A.payload ++ B.payload ++ A.payload) := by
  unfold Xbrl.collectPayloadWithContinuation
  rw [hA]
  rw [Xbrl.collectLoop_step idIndex [] bId B hb (by simp) hlb, hB]
  rw [Xbrl.collectLoop_step idIndex [bId] aId A ha (by simp [hab]) hla, hA]
  rw [Xbrl.collectLoop_visited idIndex [aId, bId] bId hb (by simp)]
  rw [pyJoin_optChunk, pyJoin_optChunk, pyJoin_optChunk]
  show pyStrip (A.payload ++ (B.payload ++ (A.payload ++ pyJoin []))) = _
  rw [show pyJoin [] = "" from rfl, str_append_empty, ← Xbrl.str_append_assoc]

theorem cyclic_chain_repeats_head_payload_witness :
    Xbrl.collectPayloadWithContinuation
        [("a", ⟨"x", some "b"⟩), ("b", ⟨"y", some "a"⟩)] ⟨"x", some "b"⟩
      = pyStrip ("x" ++ "y" ++ "x") :=
  cyclic_chain_repeats_head_payload
    [("a", ⟨"x", some "b"⟩), ("b", ⟨"y", some "a"⟩)]
    ⟨"x", some "b"⟩ ⟨"y", some "a"⟩ "a" "b"
    rfl rfl (by decide) (by decide) (by decide) (by decide) (by decide)

/-! ### Section catalog (`section_catalog.py`) -/

namespace SectionCatalog

structure SectionDefinition where
  section_id : String
  title : String
  tag_candidates : List String
  keywords : List String
  aliases : List String
  deriving DecidableEq

/-- `_norm_text` of `section_catalog.py`: NFKC fold, lowercase, strip,
drop corporate decorations and spaces, drop bracket characters. -/
def normText (text : String) : String :=
  let n0 := pyStrip (pyLower (nfkc text))
  let n1 := pyReplace n0 "株式会社" ""
  let n2 := pyReplace n1 "(株)" ""
  let n3 := pyReplace n2 " " ""
  let n4 := pyReplace n3 "　" ""
  String.mk (n4.data.filter
    (fun c => !(List.contains ['[', ']', '【', '】', '(', ')', '（', '）'] c)))

/-- `_DEFAULT_SECTION_IDS`. -/
def defaultSectionIds : List String := ["2-4", "2-3", "1-3"]

/-- `_DEFAULT_SECTIONS` (also the fallback catalog `SectionCatalog.load`
builds when no usable file is present). -/
def defaultSections : List SectionDefinition :=
  [ ⟨"1-1", "主要な経営指標等の推移", ["BusinessResultsOfGroupTextBlock"], ["経営指標", "kpi", "推移"], ["主要KPI", "指標推移"]⟩
  , ⟨"1-2", "沿革", ["CompanyHistoryTextBlock"], ["沿革", "歴史", "創業"], ["会社の歴史"]⟩
  , ⟨"1-3", "事業の内容", ["DescriptionOfBusinessTextBlock"], ["事業", "ビジネスモデル", "セグメント"], ["事業内容", "ビジネス"]⟩
  , ⟨"1-4", "関係会社の状況", ["OverviewOfAffiliatedEntitiesTextBlock"], ["関係会社", "子会社", "関連会社"], []⟩
  , ⟨"1-5", "従業員の状況", ["InformationAboutEmployeesTextBlock"], ["従業員", "社員", "人員"], ["人的資本"]⟩
  , ⟨"2-1", "経営方針、経営環境及び対処すべき課題等", ["BusinessPolicyBusinessEnvironmentIssuesToAddressEtcTextBlock", "OverviewOfBusinessResultsTextBlock"], ["経営方針", "経営環境", "課題", "対処"], ["経営課題"]⟩
  , ⟨"2-2", "サステナビリティに関する考え方及び取組", ["DisclosureOfSustainabilityRelatedFinancialInformationTextBlock"], ["サステナビリティ", "esg", "気候", "脱炭素", "人的資本"], ["ESG"]⟩
  , ⟨"2-3", "事業等のリスク", ["BusinessRisksTextBlock", "MaterialMattersRelatingToGoingConcernEtcBusinessRisksTextBlock"], ["リスク", "不確実性", "懸念", "継続企業"], ["リスク情報"]⟩
  , ⟨"2-4", "経営者による財政状態、経営成績及びキャッシュ・フローの状況の分析", ["ManagementAnalysisOfFinancialPositionOperatingResultsAndCashFlowsTextBlock"], ["財政状態", "経営成績", "キャッシュフロー", "md&a", "分析"], ["MD&A", "経営者分析"]⟩
  , ⟨"2-5", "重要な契約等", ["MaterialContractsTextBlock", "SignificantContractsTextBlock"], ["契約", "提携", "ライセンス"], []⟩
  , ⟨"2-6", "研究開発活動", ["ResearchAndDevelopmentActivitiesTextBlock"], ["研究開発", "r&d"], []⟩
  , ⟨"3-1", "設備投資等の概要", ["CapitalExpendituresOverviewTextBlock", "OverviewOfCapitalExpendituresEtcTextBlock"], ["設備投資", "capex"], []⟩
  , ⟨"3-2", "主要な設備の状況", ["MajorFacilitiesTextBlock", "MainFacilitiesTextBlock"], ["設備", "工場", "拠点"], []⟩
  , ⟨"3-3", "設備の新設、除却等の計画", ["PlansForNewConstructionRemovalEtcOfFacilitiesTextBlock"], ["新設", "除却", "設備計画"], []⟩
  , ⟨"4-1-1", "株式の総数等", ["TotalNumberOfSharesEtcTextBlock"], ["株式数", "発行済株式", "株数"], []⟩
  , ⟨"4-1-5", "所有者別状況", ["DistributionOfShareholdersTextBlock"], ["所有者別", "株主構成"], []⟩
  , ⟨"4-1-6", "大株主の状況", ["MajorShareholdersTextBlock"], ["大株主", "主要株主"], []⟩
  , ⟨"4-3", "配当政策", ["DividendPolicyTextBlock"], ["配当", "配当政策", "配当性向"], []⟩
  , ⟨"4-4-1", "コーポレート・ガバナンスの概要", ["OverviewOfCorporateGovernanceTextBlock"], ["コーポレートガバナンス", "ガバナンス"], []⟩
  , ⟨"4-4-2", "役員の状況", ["OfficersTextBlock", "StatusOfOfficersTextBlock"], ["役員", "取締役", "監査役"], []⟩
  , ⟨"4-4-3", "監査の状況", ["AuditTextBlock", "StatusOfAuditTextBlock"], ["監査", "内部監査", "会計監査"], []⟩
  , ⟨"4-4-4", "役員の報酬等", ["CompensationForOfficersTextBlock", "RemunerationForDirectorsTextBlock"], ["報酬", "役員報酬"], []⟩
  , ⟨"5-1-1", "連結財務諸表", ["ConsolidatedFinancialStatementsTextBlock"], ["連結財務諸表", "連結"], []⟩
  , ⟨"5-1-2", "その他（連結）", ["OtherInformationConsolidatedTextBlock"], ["連結注記", "連結その他"], []⟩
  , ⟨"5-2-1", "財務諸表（単体）", ["NonConsolidatedFinancialStatementsTextBlock", "FinancialStatementsTextBlock"], ["財務諸表", "単体", "貸借対照表", "損益計算書"], []⟩
  , ⟨"5-2-2", "主な資産及び負債の内容", ["MajorAssetsAndLiabilitiesTextBlock"], ["資産", "負債"], []⟩
  , ⟨"5-2-3", "その他（単体）", ["OtherInformationNonConsolidatedTextBlock"], ["単体その他"], []⟩
  , ⟨"6", "提出会社の株式事務の概要", ["ShareHandlingProceduresTextBlock"], ["株式事務"], []⟩
  , ⟨"7-1", "提出会社の親会社等の情報", ["InformationAboutParentCompanyEtcTextBlock"], ["親会社"], []⟩
  , ⟨"7-2", "その他の参考情報", ["OtherReferenceInformationTextBlock"], ["参考情報"], []⟩
  , ⟨"8", "提出会社の保証会社等の情報", ["InformationAboutGuarantorCompaniesEtcTextBlock"], ["保証会社"], []⟩
  ]

/-- `self._by_id.get(key)`: the id dictionary is built by iterating the
section list, so a later duplicate id would overwrite an earlier one
(hence the reversed search). -/
def byId (sections : List SectionDefinition) (key : String) : Option SectionDefinition :=
  sections.reverse.find? (fun s => s.section_id = key)

/-- One keyword-overlap score accumulation of `_rank_by_keywords`
(`score += 2` per keyword contained in the normalized question). -/
def keywordScore (nq : String) (keywords : List String) : Nat :=
  keywords.foldl
    (fun acc k =>
      if normText k ≠ "" && pyInStr (normText k) nq then acc + 2 else acc) 0

/-- Strict "comes first" test for the descending sort of
`(score, -index, section)` tuples (indices are pairwise distinct, so the
section component is never compared). -/
def rankBefore (a b : Nat × Nat × SectionDefinition) : Bool :=
  b.1 < a.1 || (a.1 = b.1 && a.2.1 < b.2.1)

def insertRanked (x : Nat × Nat × SectionDefinition) :
    List (Nat × Nat × SectionDefinition) → List (Nat × Nat × SectionDefinition)
  | [] => [x]
  | y :: ys => if rankBefore y x then y :: insertRanked x ys else x :: y :: ys

/-- `scored.sort(reverse=True)`: stable descending sort; with pairwise
distinct `-index` components the permutation is unique, so insertion
sort models Python's sort extensionally. -/
def rankSort : List (Nat × Nat × SectionDefinition) → List (Nat × Nat × SectionDefinition)
  | [] => []
  | x :: xs => insertRanked x (rankSort xs)

/-- `_rank_by_keywords`: score every section (2 per keyword hit, +1 for
the `2-` section-id group), sort descending, keep positive scores. -/
def rankByKeywords (sections : List SectionDefinition) (question : String) :
    List SectionDefinition :=
  let nq := normText question
  let scored := sections.enum.map
    (fun p => (keywordScore nq p.2.keywords
        + (if listStartsWith "2-".data p.2.section_id.data then 1 else 0), p.1, p.2))
  (rankSort scored).filterMap (fun t => if 0 < t.1 then some t.2.2 else none)

/-- `reasons[key] = value` on an insertion-ordered dictionary. -/
def dictSet (m : List (String × String)) (k v : String) : List (String × String) :=
  if (List.lookup k m).isSome then
    m.map (fun p => if p.1 = k then (k, v) else p)
  else m ++ [(k, v)]

/-- `reasons.setdefault(key, value)`. -/
def dictSetdefault (m : List (String × String)) (k v : String) : List (String × String) :=
  if (List.lookup k m).isSome then m else m ++ [(k, v)]

/-- `_match_section`: exact id lookup first, then per section (in catalog
order) bidirectional containment of the normalized query against title,
id and aliases. -/
def matchSection (sections : List SectionDefinition) (query : String) :
    Option SectionDefinition :=
  let nq := normText query
  if nq = "" then none
  else match byId sections query with
  | some s => some s
  | none =>
    sections.find? (fun s =>
      ([s.title, s.section_id] ++ s.aliases).any (fun variant =>
        let nv := normText variant
        nv ≠ "" && (nq = nv || pyInStr nq nv || pyInStr nv nq)))

/-- The explicit-query loop of `select_sections`. -/
def explicitLoop (sections : List SectionDefinition) :
    List String → List String → List (String × String) → List String →
    List String × List (String × String) × List String
  | [], ids, reasons, unresolved => (ids, reasons, unresolved)
  | query :: rest, ids, reasons, unresolved =>
    match matchSection sections query with
    | none => explicitLoop sections rest ids reasons (unresolved ++ [query])
    | some s =>
      if ids.contains s.section_id then explicitLoop sections rest ids reasons unresolved
      else explicitLoop sections rest (ids ++ [s.section_id])
          (dictSet reasons s.section_id ("LLM指定: " ++ query)) unresolved

/-- The keyword-ranked fill loop of `select_sections` (appends until
`max_sections` is reached). -/
def fillLoop (maxSections : Nat) :
    List SectionDefinition → List String → List (String × String) →
    List String × List (String × String)
  | [], ids, reasons => (ids, reasons)
  | s :: rest, ids, reasons =>
    if ids.contains s.section_id then fillLoop maxSections rest ids reasons
    else
      let ids' := ids ++ [s.section_id]
      let reasons' := dictSetdefault reasons s.section_id "キーワード一致"
      if maxSections ≤ ids'.length then (ids', reasons')
      else fillLoop maxSections rest ids' reasons'

/-- The default-id loop of `select_sections`. -/
def defaultLoop (sections : List SectionDefinition) (maxSections : Nat) :
    List String → List String → List (String × String) →
    List String × List (String × String)
  | [], ids, reasons => (ids, reasons)
  | sectionId :: rest, ids, reasons =>
    match byId sections sectionId with
    | none => defaultLoop sections maxSections rest ids reasons
    | some _ =>
      let ids' := ids ++ [sectionId]
      let reasons' := dictSet reasons sectionId "デフォルト"
      if maxSections ≤ ids'.length then (ids', reasons')
      else defaultLoop sections maxSections rest ids' reasons'

/-- `select_sections(question, intent_section_queries, max_sections)`:
explicit queries first, then keyword-ranked fill, then (only if nothing
at all was selected) the fixed default ids; returns the selected section
definitions, the per-id reason map and the unmatched explicit queries. -/
def selectSections (sections : List SectionDefinition) (question : String)
    (intentSectionQueries : List String) (maxSections : Nat := 3) :
    List SectionDefinition × List (String × String) × List String :=
  let st1 := explicitLoop sections intentSectionQueries [] [] []
  let ids1 := st1.1
  let reasons1 := st1.2.1
  let unresolved := st1.2.2
  let st2 :=
    if ids1.length < maxSections then
      fillLoop maxSections (rankByKeywords sections question) ids1 reasons1
    else (ids1, reasons1)
  let st3 :=
    if st2.1.isEmpty then
      defaultLoop sections maxSections defaultSectionIds st2.1 st2.2
    else st2
  (st3.1.filterMap (fun secId => byId sections secId), st3.2, unresolved)

theorem keywordScore_eq_zero (nq : String) (ks : List String)
    (h : ∀ k ∈ ks, (normText k ≠ "" && pyInStr (normText k) nq) = false) :
    keywordScore nq ks = 0 := by
  unfold keywordScore
  suffices haux : ∀ acc : Nat, ks.foldl
      (fun acc k => if normText k ≠ "" && pyInStr (normText k) nq then acc + 2 else acc) acc
        = acc from haux 0
  induction ks with
  | nil => intro acc; rfl
  | cons k t ih =>
    intro acc
    rw [List.foldl_cons]
    rw [if_neg (by rw [h k (List.mem_cons_self k t)]; simp)]
    exact ih (fun k' hk' => h k' (List.mem_cons_of_mem k hk')) acc

theorem rank_congr (sections : List SectionDefinition) (q q' : String)
    (h : ∀ s ∈ sections, keywordScore (normText q) s.keywords
        = keywordScore (normText q') s.keywords) :
    rankByKeywords sections q = rankByKeywords sections q' := by
  have hmap : ∀ l : List SectionDefinition,
      (∀ s ∈ l, keywordScore (normText q) s.keywords
          = keywordScore (normText q') s.keywords) →
      ∀ n : Nat, (List.enumFrom n l).map
        (fun p => (keywordScore (normText q) p.2.keywords
            + (if listStartsWith "2-".data p.2.section_id.data then 1 else 0), p.1, p.2))
        = (List.enumFrom n l).map
        (fun p => (keywordScore (normText q') p.2.keywords
            + (if listStartsWith "2-".data p.2.section_id.data then 1 else 0), p.1, p.2)) := by
    intro l
    induction l with
    | nil => intro _ n; simp only [List.enumFrom, List.map_nil]
    | cons s t ih =>
      intro hl n
      simp only [List.enumFrom, List.map]
      rw [hl s (List.mem_cons_self s t)]
      rw [ih (fun s' hs' => hl s' (List.mem_cons_of_mem s hs')) (n + 1)]
  simp only [rankByKeywords]
  rw [show List.enum sections = List.enumFrom 0 sections from rfl]
  rw [hmap sections h 0]

/-- C2 counterexample: the empty question has zero keyword overlap with
every catalog section and there are no explicit queries, yet
`select_sections` does not return the fixed default set `2-4, 2-3, 1-3`
tagged "デフォルト" — the `+1` bias for the `2-` section group makes every
`2-*` section score positive, so the keyword-ranked fill selects
`2-1, 2-2, 2-3` tagged "キーワード一致" and the default branch is dead. -/
theorem select_sections_zero_overlap_counterexample :
    (∀ s ∈ defaultSections, ∀ k ∈ s.keywords,
        (normText k ≠ "" && pyInStr (normText k) (normText "")) = false)
    ∧ (selectSections defaultSections "" [] 3).1.map (fun s => s.section_id)
        = ["2-1", "2-2", "2-3"]
    ∧ (selectSections defaultSections "" [] 3).1.map (fun s => s.section_id)
        ≠ defaultSectionIds
    ∧ (selectSections defaultSections "" [] 3).2.1
        = [("2-1", "キーワード一致"), ("2-2", "キーワード一致"), ("2-3", "キーワード一致")] := by
  decide

/-- C2 amended: for every question with zero keyword overlap against the
default catalog and no explicit section queries, `select_sections`
returns the first three `2-`-group sections `2-1, 2-2, 2-3`, each tagged
with the keyword-match reason "キーワード一致" (not the default set, whose
branch is unreachable for this catalog), and no unresolved queries. -/
theorem select_sections_zero_overlap_amended (q : String)
    (h : ∀ s ∈ defaultSections, ∀ k ∈ s.keywords,
        (normText k ≠ "" && pyInStr (normText k) (normText q)) = false) :
    (selectSections defaultSections q [] 3).1.map (fun s => s.section_id)
        = ["2-1", "2-2", "2-3"]
    ∧ (selectSections defaultSections q [] 3).2.1
        = [("2-1", "キーワード一致"), ("2-2", "キーワード一致"), ("2-3", "キーワード一致")]
    ∧ (selectSections defaultSections q [] 3).2.2 = [] := by
  have hempty : ∀ s ∈ defaultSections, ∀ k ∈ s.keywords,
      (normText k ≠ "" && pyInStr (normText k) (normText "")) = false := by decide
  have h0 : ∀ s ∈ defaultSections, keywordScore (normText q) s.keywords
      = keywordScore (normText "") s.keywords := by
    intro s hs
    rw [keywordScore_eq_zero _ _ (fun k hk => h s hs k hk)]
    rw [keywordScore_eq_zero _ _ (fun k hk => hempty s hs k hk)]
  have hrank := rank_congr defaultSections q "" h0
  have hsel : selectSections defaultSections q [] 3
      = selectSections defaultSections "" [] 3 := by
    simp only [selectSections, explicitLoop, hrank]
  rw [hsel]
  refine ⟨by decide, by decide, by decide⟩

theorem select_sections_zero_overlap_amended_witness :
    ((selectSections defaultSections "hello" [] 3).1.map (fun s => s.section_id)
        = ["2-1", "2-2", "2-3"])
    ∧ (selectSections defaultSections "hello" [] 3).2.1
        = [("2-1", "キーワード一致"), ("2-2", "キーワード一致"), ("2-3", "キーワード一致")]
    ∧ (selectSections defaultSections "hello" [] 3).2.2 = [] :=
  select_sections_zero_overlap_amended "hello" (by decide)

end SectionCatalog

/-! ### Organization resolver (`company_resolver.py`) -/

namespace CompanyResolver

/-- One parsed registry row (also the shape of a fallback entry built
from recently observed documents). -/
structure Row where
  edinet_code : String
  sec_code : String
  company_name : String
  deriving DecidableEq

structure CompanyCandidate where
  edinet_code : String
  company_name : String
  sec_code : Option String
  source : String
  deriving DecidableEq

structure CompanyResolution where
  query : String
  edinet_code : Option String
  sec_code : Option String
  company_name : Option String
  reason : String
  candidates : List CompanyCandidate
  deriving DecidableEq

/-- The external disambiguator hook (`Disambiguator`): question, query,
candidates ↦ chosen code or none.  Modeled as a pure function since the
code only observes its returned value. -/
def DisambFn : Type := String → String → List CompanyCandidate → Option String

/-- `_norm_text` of `company_resolver.py` (no bracket removal, unlike the
section catalog's). -/
def normText (text : String) : String :=
  let n0 := pyStrip (pyLower (nfkc text))
  let n1 := pyReplace n0 "株式会社" ""
  let n2 := pyReplace n1 "(株)" ""
  let n3 := pyReplace n2 " " ""
  pyReplace n3 "　" ""

/-- Python `s.upper()` (ASCII fragment). -/
def pyUpper (s : String) : String := String.mk (s.data.map Char.toUpper)

/-- `re.fullmatch(r"E\d{5}", s)` viewed as a Boolean. -/
def fullmatchEdinet (s : String) : Bool :=
  match s.data with
  | c :: rest => c = 'E' && rest.length = 5 && rest.all Char.isDigit
  | [] => false

/-- `re.fullmatch(r"\d{4}", s)` viewed as a Boolean. -/
def fullmatchSec4 (s : String) : Bool :=
  s.data.length = 4 && s.data.all Char.isDigit

/-- `self._by_edinet.get(code)`: the dictionary is built by iterating the
index, a later duplicate key overwriting an earlier one. -/
def byEdinet (idx : List Row) (code : String) : Option Row :=
  idx.reverse.find? (fun r => r.edinet_code = code)

/-- `self._by_sec[code]`: rows with that (non-empty) secondary code, in
index order. -/
def bySec (idx : List Row) (code : String) : List Row :=
  idx.filter (fun r => r.sec_code ≠ "" && r.sec_code = code)

/-- `self._by_name_norm[key]`: rows whose (non-empty) normalized name is
`key`, in index order. -/
def byNameNorm (idx : List Row) (key : String) : List Row :=
  idx.filter (fun r => normText r.company_name ≠ "" && normText r.company_name = key)

/-- `_to_candidate`. -/
def toCandidate (row : Row) (source : String) : CompanyCandidate :=
  ⟨row.edinet_code, row.company_name,
    (if row.sec_code = "" then none else some row.sec_code), source⟩

/-- `_find_candidates`: code token, secondary code, exact normalized
name, then substring name match capped at 8. -/
def findCandidates (idx : List Row) (query : String) : List CompanyCandidate :=
  let token := pyStrip query
  if token = "" then []
  else
    let normalized := normText token
    if fullmatchEdinet (pyUpper normalized) then
      let edinet := pyUpper normalized
      match byEdinet idx edinet with
      | some row => [toCandidate row "CSV"]
      | none => [⟨edinet, edinet, none, "コード指定"⟩]
    else if fullmatchSec4 normalized then
      (bySec idx normalized).map (fun row => toCandidate row "CSV")
    else
      let exact := byNameNorm idx normalized
      if !exact.isEmpty then exact.map (fun row => toCandidate row "CSV")
      else
        ((idx.filter (fun row =>
            normalized ≠ "" && pyInStr normalized (normText row.company_name))).map
          (fun row => toCandidate row "CSV")).take 8

/-- First-occurrence key order of a Python dict built by repeated
assignment. -/
def firstOccurrenceKeys (l : List String) : List String :=
  l.foldl (fun acc k => if acc.contains k then acc else acc ++ [k]) []

/-- `{item.edinet_code: item for item in merged}.values()`: keys in
first-insertion order, values from the last assignment. -/
def lastValueByCode (l : List CompanyCandidate) : List CompanyCandidate :=
  (firstOccurrenceKeys (l.map (fun c => c.edinet_code))).filterMap
    (fun code => l.reverse.find? (fun c => c.edinet_code = code))

/-- `_find_candidates_in_fallback`: exact normalized-name matches, else
substring matches, deduplicated by code, capped at 8. -/
def findCandidatesInFallback (fallback : List Row) (query : String) :
    List CompanyCandidate :=
  let normalized := normText query
  if normalized = "" then []
  else
    let scan := fallback.foldl
      (fun (acc : List CompanyCandidate × List CompanyCandidate) e =>
        let name := pyStrip e.company_name
        let edinet := pyStrip e.edinet_code
        if name = "" || edinet = "" then acc
        else
          let sec := pyStrip e.sec_code
          let cand : CompanyCandidate :=
            ⟨edinet, name, (if sec = "" then none else some sec), "APIメタデータ"⟩
          if normText name = normalized then (acc.1 ++ [cand], acc.2)
          else if pyInStr normalized (normText name) then (acc.1, acc.2 ++ [cand])
          else acc)
      ([], [])
    let merged := if !scan.1.isEmpty then scan.1 else scan.2
    (lastValueByCode merged).take 8

/-- The ambiguous resolution appended when several candidates survive. -/
def ambiguousRes (query : String) (cs : List CompanyCandidate) : CompanyResolution :=
  ⟨query, none, none, none, "候補が複数あります", cs.take 5⟩

/-- The unresolved resolution appended when no candidate was found. -/
def unresolvedRes (query : String) : CompanyResolution :=
  ⟨query, none, none, none, "企業候補を特定できませんでした", []⟩

/-- A resolution built from a single chosen candidate. -/
def resolvedRes (query : String) (picked : CompanyCandidate) (reason : String) :
    CompanyResolution :=
  ⟨query, some picked.edinet_code, picked.sec_code, some picked.company_name, reason, []⟩

/-- The candidate set of one `resolve_many` iteration: the registry
search, falling back to the recent-documents entries when it is empty. -/
def stepCandidates (idx : List Row) (fallback : List Row) (query : String) :
    List CompanyCandidate :=
  let candidates0 := findCandidates idx query
  if candidates0.isEmpty then findCandidatesInFallback fallback query else candidates0

/-- The disambiguator invocation of `resolve_many`: its returned code is
matched back against the candidate list (`next(...)`), yielding the
picked candidate or none. -/
def disambPick (d : DisambFn) (question query : String) (cs : List CompanyCandidate) :
    Option CompanyCandidate :=
  match d question query cs with
  | none => none
  | some pc => cs.find? (fun cand : CompanyCandidate => cand.edinet_code = pc)

/-- Continuation of a multi-candidate iteration after the disambiguator
ran: a valid, unseen pick resolves; otherwise the ambiguous resolution is
appended. -/
def afterPick (question query : String) (seen : List String) (cs : List CompanyCandidate) :
    Option CompanyCandidate → Option CompanyResolution × List String
  | some picked =>
    if seen.contains picked.edinet_code then (some (ambiguousRes query cs), seen)
    else (some (resolvedRes query picked ("LLM候補選択(" ++ picked.source ++ ")")),
          seen ++ [picked.edinet_code])
  | none => (some (ambiguousRes query cs), seen)

/-- The body of one `resolve_many` iteration, given the candidate set:
a unique candidate resolves (unless its code was already seen, which
skips the query); several candidates go through the disambiguator; none
yields the unresolved resolution. -/
def resolveWith (question query : String) (disamb : Option DisambFn) (seen : List String) :
    List CompanyCandidate → Option CompanyResolution × List String
  | [picked] =>
    if seen.contains picked.edinet_code then (none, seen)
    else (some (resolvedRes query picked (picked.source ++ "一致")),
          seen ++ [picked.edinet_code])
  | cs =>
    if 1 < cs.length then
      match disamb with
      | some d => afterPick question query seen cs (disambPick d question query cs)
      | none => (some (ambiguousRes query cs), seen)
    else (some (unresolvedRes query), seen)

/-- One iteration of the `resolve_many` loop for a single deduplicated
query: returns the appended resolution (none when the unique candidate's
code was already seen) and the updated `seen` set. -/
def resolveStep (idx : List Row) (question : String) (fallback : List Row)
    (disamb : Option DisambFn) (seen : List String) (query : String) :
    Option CompanyResolution × List String :=
  resolveWith question query disamb seen (stepCandidates idx fallback query)

/-- The `resolve_many` loop over the deduplicated queries, threading the
`seen` code set. -/
def resolveLoop (idx : List Row) (question : String) (fallback : List Row)
    (disamb : Option DisambFn) : List String → List String → List CompanyResolution
  | [], _ => []
  | query :: rest, seen =>
    match resolveStep idx question fallback disamb seen query with
    | (none, seen') => resolveLoop idx question fallback disamb rest seen'
    | (some r, seen') => r :: resolveLoop idx question fallback disamb rest seen'

/-- `_dedupe_preserve_order`: keep the first occurrence of each non-empty
normalized key, in input order. -/
def dedupeLoop : List String → List String → List String
  | [], _ => []
  | item :: rest, seenKeys =>
    let key := normText item
    if key = "" || seenKeys.contains key then dedupeLoop rest seenKeys
    else item :: dedupeLoop rest (seenKeys ++ [key])

def dedupePreserveOrder (items : List String) : List String := dedupeLoop items []

/-- `resolve_many`. -/
def resolveMany (idx : List Row) (companyQueries : List String) (question : String)
    (fallback : List Row) (disamb : Option DisambFn) : List CompanyResolution :=
  resolveLoop idx question fallback disamb (dedupePreserveOrder companyQueries) []

theorem contains_append (l1 l2 : List String) (c : String) :
    (l1 ++ l2).contains c = (l1.contains c || l2.contains c) := by
  induction l1 with
  | nil => simp
  | cons a t ih => simp [List.contains_cons, ih, Bool.or_assoc]

/-- Shape facts about an ambiguous resolution. -/
theorem ambiguousRes_spec (query : String) (cs : List CompanyCandidate) :
    (ambiguousRes query cs).query = query
    ∧ (ambiguousRes query cs).edinet_code = none
    ∧ (ambiguousRes query cs).candidates.length ≤ 5 := by
  refine ⟨rfl, rfl, ?_⟩
  simpa [ambiguousRes] using List.length_take_le 5 cs

/-- Shape facts about one `resolve_many` iteration body that appended a
resolution, parameterized over the candidate set. -/
theorem resolveWith_some_spec (question query : String) (disamb : Option DisambFn)
    (seen : List String) (cands : List CompanyCandidate)
    (r : CompanyResolution) (seen' : List String)
    (h : resolveWith question query disamb seen cands = (some r, seen')) :
    r.query = query
    ∧ (∀ c, r.edinet_code = some c →
        r.candidates = [] ∧ seen.contains c = false ∧ seen' = seen ++ [c]
          ∧ ∃ src, r.reason = src ++ "一致" ∨ r.reason = "LLM候補選択(" ++ src ++ ")")
    ∧ (r.edinet_code = none → r.candidates.length ≤ 5 ∧ seen' = seen) := by
  cases cands with
  | nil =>
    simp only [resolveWith] at h
    rw [if_neg (by simp)] at h
    simp only [Prod.mk.injEq, Option.some.injEq] at h
    obtain ⟨h1, h2⟩ := h
    subst h1; subst h2
    exact ⟨rfl, fun c hc => by simp [unresolvedRes] at hc,
      fun _ => ⟨by simp [unresolvedRes], rfl⟩⟩
  | cons c1 cs1 =>
    cases cs1 with
    | nil =>
      simp only [resolveWith] at h
      by_cases hseen : seen.contains c1.edinet_code = true
      · rw [if_pos hseen] at h
        exact absurd h (by simp)
      · rw [if_neg hseen] at h
        simp only [Prod.mk.injEq, Option.some.injEq] at h
        obtain ⟨h1, h2⟩ := h
        subst h1; subst h2
        refine ⟨rfl, ?_, ?_⟩
        · intro c hc
          simp only [resolvedRes, Option.some.injEq] at hc
          subst hc
          exact ⟨rfl, by simpa using hseen, rfl, c1.source, Or.inl rfl⟩
        · intro hc; simp [resolvedRes] at hc
    | cons c2 rest =>
      have hambig : ∀ s' : List String,
          (some (ambiguousRes query (c1 :: c2 :: rest)), seen) = (some r, s') →
          r.query = query
          ∧ (∀ c, r.edinet_code = some c →
              r.candidates = [] ∧ seen.contains c = false ∧ s' = seen ++ [c]
                ∧ ∃ src, r.reason = src ++ "一致"
                    ∨ r.reason = "LLM候補選択(" ++ src ++ ")")
          ∧ (r.edinet_code = none → r.candidates.length ≤ 5 ∧ s' = seen) := by
        intro s' hh
        simp only [Prod.mk.injEq, Option.some.injEq] at hh
        obtain ⟨hh1, hh2⟩ := hh
        subst hh1; subst hh2
        obtain ⟨hq, hcode, hlen⟩ := ambiguousRes_spec query (c1 :: c2 :: rest)
        refine ⟨hq, ?_, ?_⟩
        · intro c hc
          rw [hcode] at hc
          cases hc
        · intro _
          exact ⟨hlen, rfl⟩
      cases disamb with
      | none =>
        simp only [resolveWith] at h
        rw [if_pos (by simp only [List.length_cons]; omega)] at h
        exact hambig seen' h
      | some d =>
        simp only [resolveWith] at h
        rw [if_pos (by simp only [List.length_cons]; omega)] at h
        cases hp : disambPick d question query (c1 :: c2 :: rest) with
        | none =>
          rw [hp] at h
          simp only [afterPick] at h
          exact hambig seen' h
        | some picked =>
          rw [hp] at h
          simp only [afterPick] at h
          by_cases hseen : seen.contains picked.edinet_code = true
          · rw [if_pos hseen] at h
            exact hambig seen' h
          · rw [if_neg hseen] at h
            simp only [Prod.mk.injEq, Option.some.injEq] at h
            obtain ⟨h1, h2⟩ := h
            subst h1; subst h2
            refine ⟨rfl, ?_, ?_⟩
            · intro c hc
              simp only [resolvedRes, Option.some.injEq] at hc
              subst hc
              exact ⟨rfl, by simpa using hseen, rfl, picked.source, Or.inr rfl⟩
            · intro hc; simp [resolvedRes] at hc

/-- Shape facts about one `resolve_many` iteration that appended a
resolution. -/
theorem resolveStep_some_spec (idx : List Row) (question : String) (fallback : List Row)
    (disamb : Option DisambFn) (seen : List String) (query : String)
    (r : CompanyResolution) (seen' : List String)
    (h : resolveStep idx question fallback disamb seen query = (some r, seen')) :
    r.query = query
    ∧ (∀ c, r.edinet_code = some c →
        r.candidates = [] ∧ seen.contains c = false ∧ seen' = seen ++ [c]
          ∧ ∃ src, r.reason = src ++ "一致" ∨ r.reason = "LLM候補選択(" ++ src ++ ")")
    ∧ (r.edinet_code = none → r.candidates.length ≤ 5 ∧ seen' = seen) :=
  resolveWith_some_spec question query disamb seen (stepCandidates idx fallback query)
    r seen' h

/-- A skipped iteration leaves the `seen` set unchanged. -/
theorem resolveWith_none_spec (question query : String) (disamb : Option DisambFn)
    (seen : List String) (cands : List CompanyCandidate) (seen' : List String)
    (h : resolveWith question query disamb seen cands = (none, seen')) :
    seen' = seen := by
  cases cands with
  | nil =>
    simp only [resolveWith] at h
    rw [if_neg (by simp)] at h
    simp at h
  | cons c1 cs1 =>
    cases cs1 with
    | nil =>
      simp only [resolveWith] at h
      by_cases hseen : seen.contains c1.edinet_code = true
      · rw [if_pos hseen] at h
        simp only [Prod.mk.injEq] at h
        exact h.2.symm
      · rw [if_neg hseen] at h
        simp at h
    | cons c2 rest =>
      cases disamb with
      | none =>
        simp only [resolveWith] at h
        rw [if_pos (by simp only [List.length_cons]; omega)] at h
        simp at h
      | some d =>
        simp only [resolveWith] at h
        rw [if_pos (by simp only [List.length_cons]; omega)] at h
        cases hp : disambPick d question query (c1 :: c2 :: rest) with
        | none =>
          rw [hp] at h
          simp only [afterPick] at h
          simp at h
        | some picked =>
          rw [hp] at h
          simp only [afterPick] at h
          by_cases hseen : seen.contains picked.edinet_code = true
          · rw [if_pos hseen] at h; simp at h
          · rw [if_neg hseen] at h; simp at h

theorem resolveStep_none_spec (idx : List Row) (question : String) (fallback : List Row)
    (disamb : Option DisambFn) (seen : List String) (query : String) (seen' : List String)
    (h : resolveStep idx question fallback disamb seen query = (none, seen')) :
    seen' = seen :=
  resolveWith_none_spec question query disamb seen (stepCandidates idx fallback query)
    seen' h

/-- The updated `seen` set only grows. -/
theorem resolveStep_seen_grows (idx : List Row) (question : String) (fallback : List Row)
    (disamb : Option DisambFn) (seen : List String) (query : String)
    (ores : Option CompanyResolution) (seen' : List String)
    (h : resolveStep idx question fallback disamb seen query = (ores, seen'))
    (c : String) (hc : seen'.contains c = false) : seen.contains c = false := by
  cases ores with
  | none => rw [resolveStep_none_spec _ _ _ _ _ _ _ h] at hc; exact hc
  | some r =>
    obtain ⟨-, hsome, hnone⟩ := resolveStep_some_spec _ _ _ _ _ _ _ _ h
    cases hcode : r.edinet_code with
    | none => rw [(hnone hcode).2] at hc; exact hc
    | some c0 =>
      obtain ⟨-, -, hseen', -⟩ := hsome c0 hcode
      rw [hseen'] at hc
      rw [contains_append] at hc
      simp only [Bool.or_eq_false_iff] at hc
      exact hc.1

/-- Every resolved code emitted by the loop was absent from the incoming
`seen` set. -/
theorem resolveLoop_code_not_seen (idx : List Row) (question : String) (fallback : List Row)
    (disamb : Option DisambFn) :
    ∀ (qs : List String) (seen : List String),
      ∀ r ∈ resolveLoop idx question fallback disamb qs seen,
        ∀ c, r.edinet_code = some c → seen.contains c = false := by
  intro qs
  induction qs with
  | nil => intro seen r hr; simp [resolveLoop] at hr
  | cons q rest ih =>
    intro seen r hr c hc
    rw [resolveLoop] at hr
    cases hstep : resolveStep idx question fallback disamb seen q with
    | mk ores seen' =>
      rw [hstep] at hr
      cases ores with
      | none =>
        exact resolveStep_seen_grows _ _ _ _ _ _ _ _ hstep c (ih seen' r hr c hc)
      | some r0 =>
        simp only [List.mem_cons] at hr
        cases hr with
        | inl hr0 =>
          subst hr0
          obtain ⟨-, hsome, -⟩ := resolveStep_some_spec _ _ _ _ _ _ _ _ hstep
          exact (hsome c hc).2.1
        | inr htail =>
          exact resolveStep_seen_grows _ _ _ _ _ _ _ _ hstep c (ih seen' r htail c hc)

/-- The loop never emits two resolutions with the same resolved code. -/
theorem resolveLoop_pairwise_codes (idx : List Row) (question : String) (fallback : List Row)
    (disamb : Option DisambFn) :
    ∀ (qs : List String) (seen : List String),
      (resolveLoop idx question fallback disamb qs seen).Pairwise
        (fun a b => ∀ c, a.edinet_code = some c → b.edinet_code ≠ some c) := by
  intro qs
  induction qs with
  | nil => intro seen; simp [resolveLoop]
  | cons q rest ih =>
    intro seen
    rw [resolveLoop]
    cases hstep : resolveStep idx question fallback disamb seen q with
    | mk ores seen' =>
      cases ores with
      | none => exact ih seen'
      | some r0 =>
        refine List.Pairwise.cons ?_ (ih seen')
        intro b hb c hc hbc
        obtain ⟨-, hsome, -⟩ := resolveStep_some_spec _ _ _ _ _ _ _ _ hstep
        obtain ⟨-, -, hseen', -⟩ := hsome c hc
        have hbnot := resolveLoop_code_not_seen idx question fallback disamb rest seen' b hb c hbc
        rw [hseen'] at hbnot
        rw [contains_append] at hbnot
        simp at hbnot

/-- The loop emits at most one resolution per query, carrying that query,
in query order. -/
theorem resolveLoop_queries_sublist (idx : List Row) (question : String) (fallback : List Row)
    (disamb : Option DisambFn) :
    ∀ (qs : List String) (seen : List String),
      ((resolveLoop idx question fallback disamb qs seen).map
        (fun r => r.query)).Sublist qs := by
  intro qs
  induction qs with
  | nil => intro seen; simp [resolveLoop]
  | cons q rest ih =>
    intro seen
    rw [resolveLoop]
    cases hstep : resolveStep idx question fallback disamb seen q with
    | mk ores seen' =>
      cases ores with
      | none => exact List.Sublist.cons q (ih seen')
      | some r0 =>
        obtain ⟨hq, -, -⟩ := resolveStep_some_spec _ _ _ _ _ _ _ _ hstep
        simp only [List.map_cons, hq]
        exact List.Sublist.cons₂ q (ih seen')

/-- `_dedupe_preserve_order` output is a sublist of its input. -/
theorem dedupeLoop_sublist : ∀ (items seenKeys : List String),
    (dedupeLoop items seenKeys).Sublist items := by
  intro items
  induction items with
  | nil => intro seenKeys; simp [dedupeLoop]
  | cons item rest ih =>
    intro seenKeys
    rw [dedupeLoop]
    split
    · exact List.Sublist.cons item (ih seenKeys)
    · exact List.Sublist.cons₂ item (ih _)

/-- No `_dedupe_preserve_order` output key was already seen. -/
theorem dedupeLoop_not_seen : ∀ (items seenKeys : List String),
    ∀ x ∈ dedupeLoop items seenKeys, seenKeys.contains (normText x) = false := by
  intro items
  induction items with
  | nil => intro seenKeys x hx; simp [dedupeLoop] at hx
  | cons item rest ih =>
    intro seenKeys x hx
    rw [dedupeLoop] at hx
    split at hx
    case _ hcond => exact ih seenKeys x hx
    case _ hcond =>
      simp only [List.mem_cons] at hx
      cases hx with
      | inl hx0 =>
        subst hx0
        simp only [Bool.or_eq_true, decide_eq_true_eq, not_or] at hcond
        simpa using hcond.2
      | inr htail =>
        have := ih (seenKeys ++ [normText item]) x htail
        rw [contains_append] at this
        simp only [Bool.or_eq_false_iff] at this
        exact this.1

/-- `_dedupe_preserve_order` keeps pairwise-distinct normalized keys. -/
theorem dedupeLoop_pairwise : ∀ (items seenKeys : List String),
    (dedupeLoop items seenKeys).Pairwise (fun a b => normText a ≠ normText b) := by
  intro items
  induction items with
  | nil => intro seenKeys; simp [dedupeLoop]
  | cons item rest ih =>
    intro seenKeys
    rw [dedupeLoop]
    split
    · exact ih seenKeys
    · refine List.Pairwise.cons ?_ (ih _)
      intro b hb heq
      have := dedupeLoop_not_seen rest (seenKeys ++ [normText item]) b hb
      rw [← heq] at this
      rw [contains_append] at this
      simp at this

/-- C5: Every resolution returned by `resolve_many` satisfies the
resolved/ambiguous dichotomy: a set resolved code comes from exactly one
chosen candidate (unique match, reason `…一致`, or disambiguator pick,
reason `LLM候補選択(…)`) and carries an empty candidate list; an
unresolved resolution carries at most 5 candidates; no resolution is both
resolved and ambiguous. -/
theorem resolve_many_resolution_invariant (idx : List Row) (companyQueries : List String)
    (question : String) (fallback : List Row) (disamb : Option DisambFn) :
    ∀ r ∈ resolveMany idx companyQueries question fallback disamb,
      (r.edinet_code ≠ none →
        r.candidates = []
          ∧ ∃ src, r.reason = src ++ "一致" ∨ r.reason = "LLM候補選択(" ++ src ++ ")")
      ∧ (r.edinet_code = none → r.candidates.length ≤ 5)
      ∧ ¬(r.edinet_code ≠ none ∧ r.candidates ≠ []) := by
  have hloop : ∀ (qs seen : List String),
      ∀ r ∈ resolveLoop idx question fallback disamb qs seen,
        (r.edinet_code ≠ none →
          r.candidates = []
            ∧ ∃ src, r.reason = src ++ "一致" ∨ r.reason = "LLM候補選択(" ++ src ++ ")")
        ∧ (r.edinet_code = none → r.candidates.length ≤ 5) := by
    intro qs
    induction qs with
    | nil => intro seen r hr; simp [resolveLoop] at hr
    | cons q rest ih =>
      intro seen r hr
      rw [resolveLoop] at hr
      cases hstep : resolveStep idx question fallback disamb seen q with
      | mk ores seen' =>
        rw [hstep] at hr
        cases ores with
        | none => exact ih seen' r hr
        | some r0 =>
          simp only [List.mem_cons] at hr
          cases hr with
          | inl hr0 =>
            subst hr0
            obtain ⟨-, hsome, hnone⟩ := resolveStep_some_spec _ _ _ _ _ _ _ _ hstep
            constructor
            · intro hres
              cases hcode : r.edinet_code with
              | none => exact absurd hcode hres
              | some c =>
                obtain ⟨hcand, -, -, hsrc⟩ := hsome c hcode
                exact ⟨hcand, hsrc⟩
            · intro hcode
              exact (hnone hcode).1
          | inr htail => exact ih seen' r htail
  intro r hr
  obtain ⟨h1, h2⟩ := hloop (dedupePreserveOrder companyQueries) [] r hr
  refine ⟨h1, h2, ?_⟩
  rintro ⟨hres, hcand⟩
  exact hcand (h1 hres).1

theorem resolve_many_resolution_invariant_witness :
    (⟨"Example Foods", some "E00001", some "1234", some "Example Foods Co", "CSV一致", []⟩ :
        CompanyResolution).candidates = []
    ∧ ∃ src, ("CSV一致" : String) = src ++ "一致"
        ∨ ("CSV一致" : String) = "LLM候補選択(" ++ src ++ ")" := by
  have h := resolve_many_resolution_invariant
    [⟨"E00001", "1234", "Example Foods Co"⟩] ["Example Foods"] "q" [] none
    ⟨"Example Foods", some "E00001", some "1234", some "Example Foods Co", "CSV一致", []⟩
    (by decide)
  exact h.1 (by decide)

/-- C6: `resolve_many` never returns two resolutions sharing a resolved
code; each returned resolution carries one of the deduplicated queries,
in first-occurrence input order (the emitted query sequence is a sublist
of the deduplicated queries, itself an order-preserving sublist of the
input); and queries equal after normalization are processed only once
(the deduplicated queries have pairwise-distinct normalizations). -/
theorem resolve_many_dedup_and_order (idx : List Row) (companyQueries : List String)
    (question : String) (fallback : List Row) (disamb : Option DisambFn) :
    ((resolveMany idx companyQueries question fallback disamb).Pairwise
        (fun a b => ∀ c, a.edinet_code = some c → b.edinet_code ≠ some c))
    ∧ ((resolveMany idx companyQueries question fallback disamb).map
        (fun r => r.query)).Sublist (dedupePreserveOrder companyQueries)
    ∧ (dedupePreserveOrder companyQueries).Sublist companyQueries
    ∧ (dedupePreserveOrder companyQueries).Pairwise
        (fun a b => normText a ≠ normText b) :=
  ⟨resolveLoop_pairwise_codes idx question fallback disamb _ [],
   resolveLoop_queries_sublist idx question fallback disamb _ [],
   dedupeLoop_sublist companyQueries [],
   dedupeLoop_pairwise companyQueries []⟩

end CompanyResolver

/-! ### Document repository (`documents_repository.py`)

The repository talks to the network through `httpx`; an exchange is
modeled as `Except TransportError HttpResponse` — `Except.error` models
the client raising (e.g. a connection error), which the source does not
catch.  JSON payloads are modeled by an AST (`json.dumps`/`json.loads`
round-trip on it is the identity); the number fragment is integral. -/

namespace DocumentsRepo

inductive Json where
  | null
  | bool (b : Bool)
  | num (n : Int)
  | str (s : String)
  | arr (items : List Json)
  | obj (fields : List (String × Json))

mutual

/-- Structural equality of JSON values (Python `==` on parsed JSON). -/
def Json.beq : Json → Json → Bool
  | .null, .null => true
  | .bool a, .bool b => a == b
  | .num a, .num b => a == b
  | .str a, .str b => a == b
  | .arr a, .arr b => beqJsonList a b
  | .obj a, .obj b => beqJsonFields a b
  | _, _ => false

def beqJsonList : List Json → List Json → Bool
  | [], [] => true
  | x :: xs, y :: ys => Json.beq x y && beqJsonList xs ys
  | _, _ => false

def beqJsonFields : List (String × Json) → List (String × Json) → Bool
  | [], [] => true
  | (k1, v1) :: xs, (k2, v2) :: ys => k1 == k2 && Json.beq v1 v2 && beqJsonFields xs ys
  | _, _ => false

end

/-- Python `==` on optional JSON values (`None == None` is true). -/
def optJsonBeq : Option Json → Option Json → Bool
  | none, none => true
  | some x, some y => Json.beq x y
  | _, _ => false

/-- `isinstance(payload, dict)`. -/
def Json.isObj : Json → Bool
  | .obj _ => true
  | _ => false

/-- `payload.get(key)` (a parsed-JSON dict has unique keys; a later
duplicate would have overwritten an earlier one at parse time, hence the
reversed search). -/
def Json.get : Json → String → Option Json
  | .obj fields, key => (fields.reverse.find? (fun p => p.1 = key)).map Prod.snd
  | _, _ => none

/-- Python truthiness of a JSON value. -/
def pyTruthy : Json → Bool
  | .null => false
  | .bool b => b
  | .num n => n ≠ 0
  | .str s => s ≠ ""
  | .arr items => !items.isEmpty
  | .obj fields => !fields.isEmpty

/-- Python `a or b` over optional JSON values (`None` is falsy). -/
def pyOr (a b : Option Json) : Option Json :=
  match a with
  | some v => if pyTruthy v then some v else b
  | none => b

/-- `str(value)` on the JSON fragment the documents carry (strings,
numbers, booleans, null; list/dict stringification is not exercised by
the claims and is rendered structurally). -/
def pyStr : Json → String
  | .str s => s
  | .null => "None"
  | .bool true => "True"
  | .bool false => "False"
  | .num n => toString n
  | .arr _ => "[...]"
  | .obj _ => "{...}"

/-- `str(doc.get(key) or "")`. -/
def strOrEmpty (o : Option Json) : String :=
  match o with
  | none => ""
  | some v => if pyTruthy v then pyStr v else ""

/-- An on-disk cache file: its JSON content (`none` models text that
`json.loads` rejects) and its modification-time age. -/
structure CacheFile where
  content : Option Json
  ageMinutes : Nat

/-- `self.ttl_hours = max(1, ttl_hours)`. -/
def clampTtlHours (t : Nat) : Nat := max 1 t

/-- `_is_cache_fresh`: the file exists and its age is within the TTL. -/
def isCacheFresh (ttlHours : Nat) (file : Option CacheFile) : Bool :=
  match file with
  | none => false
  | some f => f.ageMinutes ≤ ttlHours * 60

/-- `_read_json_file`: `None` unless the file exists, is fresh, parses,
and holds a dict. -/
def readJsonFile (ttlHours : Nat) (file : Option CacheFile) : Option Json :=
  if !isCacheFresh ttlHours file then none
  else match file with
  | none => none
  | some f =>
    match f.content with
    | none => none
    | some payload => if payload.isObj then some payload else none

/-- `_extract_docs`: the `results` list of the payload, else `[]`. -/
def extractDocs (payload : Json) : List Json :=
  match payload.get "results" with
  | some (.arr rows) => rows
  | _ => []

/-- `_read_docs_payload`. -/
def readDocsPayload (ttlHours : Nat) (file : Option CacheFile) : List Json :=
  match readJsonFile ttlHours file with
  | none => []
  | some payload => extractDocs payload

/-- `_write_json_file`: a fresh file holding the payload (a write failure
is swallowed by the source and would leave the previous state; the claims
only constrain the returned values). -/
def writeJsonFile (payload : Json) : Option CacheFile :=
  some ⟨some payload, 0⟩

/-- Ageing a cache file by mtime. -/
def ageFile (file : Option CacheFile) (minutes : Nat) : Option CacheFile :=
  file.map (fun f => ⟨f.content, minutes⟩)

/-- `_metadata_fingerprint`. -/
def metadataFingerprint (payload : Json) : Option Json × Option Json × Option Json :=
  let metadata :=
    match payload.get "metadata" with
    | some j => if j.isObj then j else Json.obj []
    | none => Json.obj []
  let resultset :=
    match payload.get "resultset" with
    | some j => if j.isObj then j else Json.obj []
    | none => Json.obj []
  let count := resultset.get "count"
  let process := pyOr (pyOr (metadata.get "processDateTime") (metadata.get "timeStamp"))
    (metadata.get "resultset")
  let status := pyOr (metadata.get "status") (metadata.get "message")
  (count, process, status)

/-- `_same_metadata`: fingerprint tuples compared with Python `==`. -/
def sameMetadata (current : Json) (cached : Option Json) : Bool :=
  match cached with
  | none => false
  | some c =>
    optJsonBeq (metadataFingerprint current).1 (metadataFingerprint c).1
      && optJsonBeq (metadataFingerprint current).2.1 (metadataFingerprint c).2.1
      && optJsonBeq (metadataFingerprint current).2.2 (metadataFingerprint c).2.2

/-- A transport-level failure raised by `client.get` (connection error,
timeout, …). -/
structure TransportError where
  msg : String
  deriving DecidableEq

/-- An HTTP response: status code and parsed body (`none` models a body
`response.json()` rejects). -/
structure HttpResponse where
  status : Nat
  body : Option Json

/-- The outcome `_fetch_documents_payload` distills from a response that
did arrive. -/
def fetchOutcome (r : HttpResponse) : Option Json :=
  if r.status ≠ 200 then none
  else match r.body with
  | none => none
  | some payload => if payload.isObj then some payload else none

/-- The error-list entries `_fetch_documents_payload` appends for a
response that did arrive. -/
def fetchErrs (dateKey : String) (fetchType : Nat) (r : HttpResponse) : List String :=
  if r.status ≠ 200 then
    ["documents.json date=" ++ dateKey ++ " type=" ++ toString fetchType
      ++ " status=" ++ toString r.status]
  else match r.body with
  | none => ["documents.json date=" ++ dateKey ++ " type=" ++ toString fetchType
      ++ " invalid_json"]
  | some payload =>
    if payload.isObj then []
    else ["documents.json date=" ++ dateKey ++ " type=" ++ toString fetchType
      ++ " unexpected_payload"]

/-- `_fetch_documents_payload`: `client.get` may raise (propagated — the
source has no `try` around it); a non-200 status, unparseable body or
non-dict payload yields `None` plus an error entry. -/
def fetchDocumentsPayload (dateKey : String) (fetchType : Nat)
    (exchange : Except TransportError HttpResponse) (apiErrors : List String) :
    Except TransportError (Option Json × List String) :=
  match exchange with
  | .error e => .error e
  | .ok r =>
    if r.status ≠ 200 then
      .ok (none, apiErrors ++ ["documents.json date=" ++ dateKey ++ " type="
        ++ toString fetchType ++ " status=" ++ toString r.status])
    else match r.body with
    | none => .ok (none, apiErrors ++ ["documents.json date=" ++ dateKey ++ " type="
        ++ toString fetchType ++ " invalid_json"])
    | some payload =>
      if payload.isObj then .ok (some payload, apiErrors)
      else .ok (none, apiErrors ++ ["documents.json date=" ++ dateKey ++ " type="
        ++ toString fetchType ++ " unexpected_payload"])

theorem fetchDocumentsPayload_ok (dateKey : String) (fetchType : Nat)
    (r : HttpResponse) (apiErrors : List String) :
    fetchDocumentsPayload dateKey fetchType (.ok r) apiErrors
      = .ok (fetchOutcome r, apiErrors ++ fetchErrs dateKey fetchType r) := by
  by_cases hs : r.status ≠ 200
  · simp [fetchDocumentsPayload, fetchOutcome, fetchErrs, hs]
  · have hs' : r.status = 200 := not_ne_iff.mp hs
    cases hb : r.body with
    | none => simp [fetchDocumentsPayload, fetchOutcome, fetchErrs, hs', hb]
    | some payload =>
      by_cases ho : payload.isObj = true
      · simp [fetchDocumentsPayload, fetchOutcome, fetchErrs, hs', hb, ho]
      · have ho' : payload.isObj = false := by simpa using ho
        simp [fetchDocumentsPayload, fetchOutcome, fetchErrs, hs', hb, ho']

/-- `get_documents_for_date` for one date key, as a function of the
in-memory cache entry, the two on-disk cache files, and the two network
exchanges the call would perform; returns the document list, the error
list and the two file states — or propagates a transport exception. -/
def getDocumentsForDate (forceRefresh : Bool) (ttlHours : Nat)
    (memCache : Option (List Json)) (metaFile docsFile : Option CacheFile)
    (dateKey : String) (metaEx docsEx : Except TransportError HttpResponse)
    (apiErrors : List String) :
    Except TransportError (List Json × List String × Option CacheFile × Option CacheFile) :=
  match memCache with
  | some docs => .ok (docs, apiErrors, metaFile, docsFile)
  | none =>
    let cachedMeta := if forceRefresh then none else readJsonFile ttlHours metaFile
    let cachedDocs := if forceRefresh then [] else readDocsPayload ttlHours docsFile
    match fetchDocumentsPayload dateKey 1 metaEx apiErrors with
    | .error e => .error e
    | .ok (remoteMeta, errs1) =>
      match remoteMeta with
      | some rm =>
        let metaFile' := writeJsonFile rm
        if !cachedDocs.isEmpty && sameMetadata rm cachedMeta then
          .ok (cachedDocs, errs1, metaFile', docsFile)
        else
          match fetchDocumentsPayload dateKey 2 docsEx errs1 with
          | .error e => .error e
          | .ok (remoteDocs, errs2) =>
            match remoteDocs with
            | some rd => .ok (extractDocs rd, errs2, metaFile', writeJsonFile rd)
            | none =>
              if !cachedDocs.isEmpty && isCacheFresh ttlHours docsFile then
                .ok (cachedDocs, errs2, metaFile', docsFile)
              else .ok ([], errs2, metaFile', docsFile)
      | none =>
        if !cachedDocs.isEmpty && isCacheFresh ttlHours docsFile then
          .ok (cachedDocs, errs1, metaFile, docsFile)
        else .ok ([], errs1, metaFile, docsFile)

/-- C3 counterexample: a transport-level exception from the underlying
HTTP client (here, on the metadata probe) propagates out of
`get_documents_for_date` — there is no `try` around `client.get` — so
"never raises" fails for that failure mode, and no cache fallback or
error accumulation happens. -/
theorem get_documents_transport_error_counterexample :
    getDocumentsForDate false (clampTtlHours 1) none none none "2024-06-03"
        (.error ⟨"connection error"⟩) (.ok ⟨200, some (Json.obj [])⟩) []
      = .error ⟨"connection error"⟩ := rfl

/-- C3 amended: when both stages' HTTP exchanges complete without a
transport exception, `get_documents_for_date` never raises; if the
metadata probe fails (non-200 status, unparseable body, or non-dict
payload) it returns the fresh on-disk listing when one exists (else the
empty list) with the failure appended to the error list; likewise when
the probe succeeds, the fingerprint shortcut does not apply, and the
full-listing fetch fails, both failures having been appended.  A
transport-level exception, by contrast, propagates (see the
counterexample). -/
theorem get_documents_fallback_amended (ttlHours : Nat)
    (metaFile docsFile : Option CacheFile) (dateKey : String)
    (r1 r2 : HttpResponse) (apiErrors : List String) :
    (∃ out, getDocumentsForDate false ttlHours none metaFile docsFile dateKey
        (.ok r1) (.ok r2) apiErrors = .ok out)
    ∧ (fetchOutcome r1 = none →
        getDocumentsForDate false ttlHours none metaFile docsFile dateKey
            (.ok r1) (.ok r2) apiErrors
          = .ok ((if !(readDocsPayload ttlHours docsFile).isEmpty
                    && isCacheFresh ttlHours docsFile
                  then readDocsPayload ttlHours docsFile else []),
              apiErrors ++ fetchErrs dateKey 1 r1, metaFile, docsFile))
    ∧ (∀ rm, fetchOutcome r1 = some rm →
        (!(readDocsPayload ttlHours docsFile).isEmpty
            && sameMetadata rm (readJsonFile ttlHours metaFile)) = false →
        fetchOutcome r2 = none →
        getDocumentsForDate false ttlHours none metaFile docsFile dateKey
            (.ok r1) (.ok r2) apiErrors
          = .ok ((if !(readDocsPayload ttlHours docsFile).isEmpty
                    && isCacheFresh ttlHours docsFile
                  then readDocsPayload ttlHours docsFile else []),
              apiErrors ++ fetchErrs dateKey 1 r1 ++ fetchErrs dateKey 2 r2,
              writeJsonFile rm, docsFile)) := by
  refine ⟨?_, ?_, ?_⟩
  · cases ho1 : fetchOutcome r1 with
    | none =>
      simp only [getDocumentsForDate, fetchDocumentsPayload_ok, ho1,
        Bool.false_eq_true, if_false]
      split
      · exact ⟨_, rfl⟩
      · exact ⟨_, rfl⟩
    | some rm =>
      by_cases hsc : (!(readDocsPayload ttlHours docsFile).isEmpty
          && sameMetadata rm (readJsonFile ttlHours metaFile)) = true
      · simp only [getDocumentsForDate, fetchDocumentsPayload_ok, ho1,
          Bool.false_eq_true, if_false, hsc, if_true]
        exact ⟨_, rfl⟩
      · have hsc' : (!(readDocsPayload ttlHours docsFile).isEmpty
            && sameMetadata rm (readJsonFile ttlHours metaFile)) = false := by
          simpa using hsc
        cases ho2 : fetchOutcome r2 with
        | none =>
          simp only [getDocumentsForDate, fetchDocumentsPayload_ok, ho1,
            ho2, Bool.false_eq_true, if_false, hsc']
          split
          · exact ⟨_, rfl⟩
          · exact ⟨_, rfl⟩
        | some rd =>
          simp only [getDocumentsForDate, fetchDocumentsPayload_ok, ho1,
            ho2, Bool.false_eq_true, if_false, hsc']
          exact ⟨_, rfl⟩
  · intro ho1
    simp only [getDocumentsForDate, fetchDocumentsPayload_ok, ho1,
      Bool.false_eq_true, if_false]
    split
    · rfl
    · rfl
  · intro rm ho1 hsc ho2
    simp only [getDocumentsForDate, fetchDocumentsPayload_ok, ho1, ho2,
      Bool.false_eq_true, if_false, hsc, List.append_assoc]
    split
    · rfl
    · rfl

theorem get_documents_fallback_amended_witness :
    getDocumentsForDate false (clampTtlHours 1) none none
        (some ⟨some (Json.obj [("results", Json.arr [Json.obj [("docID", Json.str "D1")]])]), 30⟩)
        "2024-06-03" (.ok ⟨500, none⟩) (.ok ⟨200, some (Json.obj [])⟩) []
      = .ok ([Json.obj [("docID", Json.str "D1")]],
          ["documents.json date=2024-06-03 type=1 status=500"],
          none,
          some ⟨some (Json.obj [("results", Json.arr [Json.obj [("docID", Json.str "D1")]])]), 30⟩) := by
  have h := (get_documents_fallback_amended (clampTtlHours 1) none
    (some ⟨some (Json.obj [("results", Json.arr [Json.obj [("docID", Json.str "D1")]])]), 30⟩)
    "2024-06-03" ⟨500, none⟩ ⟨200, some (Json.obj [])⟩ []).2.1 rfl
  rw [h]
  rfl

/-- C8: With TTL clamped from 1 hour, a written payload aged 2 hours
reads back as a miss (`None`), while the same payload aged 30 minutes
reads back exactly as written. -/
theorem cache_ttl_miss_and_roundtrip (p : Json) (h : p.isObj = true) :
    readJsonFile (clampTtlHours 1) (ageFile (writeJsonFile p) 120) = none
    ∧ readJsonFile (clampTtlHours 1) (ageFile (writeJsonFile p) 30) = some p := by
  constructor
  · simp [readJsonFile, isCacheFresh, ageFile, writeJsonFile, clampTtlHours, Option.map]
  · simp [readJsonFile, isCacheFresh, ageFile, writeJsonFile, clampTtlHours, Option.map, h]

theorem cache_ttl_miss_and_roundtrip_witness :
    readJsonFile (clampTtlHours 1)
        (ageFile (writeJsonFile (Json.obj [("k", Json.str "v")])) 120) = none
    ∧ readJsonFile (clampTtlHours 1)
        (ageFile (writeJsonFile (Json.obj [("k", Json.str "v")])) 30)
      = some (Json.obj [("k", Json.str "v")]) :=
  cache_ttl_miss_and_roundtrip (Json.obj [("k", Json.str "v")]) rfl

/-! #### `find_latest_annual_filing` -/

/-- Code-point lexicographic comparison (Python `<` on strings). -/
def listLt : List Char → List Char → Bool
  | [], [] => false
  | [], _ :: _ => true
  | _ :: _, [] => false
  | a :: as, b :: bs =>
    if a.toNat < b.toNat then true
    else if b.toNat < a.toNat then false
    else listLt as bs

def pyStrLt (a b : String) : Bool := listLt a.data b.data

theorem listLt_irrefl : ∀ l : List Char, listLt l l = false
  | [] => rfl
  | a :: as => by
    simp only [listLt, Nat.lt_irrefl, if_false]
    exact listLt_irrefl as

theorem listLt_asymm : ∀ a b : List Char, listLt a b = true → listLt b a = false
  | [], [], h => by simp [listLt] at h
  | [], _ :: _, _ => by simp [listLt]
  | _ :: _, [], h => by simp [listLt] at h
  | a :: as, b :: bs, h => by
    simp only [listLt] at h ⊢
    by_cases h1 : a.toNat < b.toNat
    · rw [if_neg (by omega), if_pos h1]
    · by_cases h2 : b.toNat < a.toNat
      · rw [if_neg h1, if_pos h2] at h
        cases h
      · rw [if_neg h1, if_neg h2] at h
        rw [if_neg h2, if_neg h1]
        exact listLt_asymm as bs h

/-- `str(doc.get("submitDateTime") or "")`, falling back to
`f"{submitDate}T{submitTime}"` — `_doc_sort_key`. -/
def docSortKey (doc : Json) : String :=
  let submit := strOrEmpty (doc.get "submitDateTime")
  if submit ≠ "" then submit
  else strOrEmpty (doc.get "submitDate") ++ "T" ++ strOrEmpty (doc.get "submitTime")

def digitsToNat (cs : List Char) : Nat :=
  cs.foldl (fun acc c => acc * 10 + (c.toNat - '0'.toNat)) 0

/-- `re.fullmatch(r"(\d{4})-(\d{2})-(\d{2})", s)`, returning the year and
month groups. -/
def parseYmd (s : String) : Option (Nat × Nat) :=
  match s.data with
  | [y1, y2, y3, y4, '-', m1, m2, '-', d1, d2] =>
    if ([y1, y2, y3, y4, m1, m2, d1, d2] : List Char).all Char.isDigit then
      some (digitsToNat [y1, y2, y3, y4], digitsToNat [m1, m2])
    else none
  | _ => none

/-- `_matches_period_end`. -/
def matchesPeriodEnd (periodEnd : String) (year month : Nat) : Bool :=
  match parseYmd periodEnd with
  | none => false
  | some (y, m) => y = year && m = month

/-- `_matches_fiscal_year`: allow the exact calendar year or, for a
period ending in the first half of the year, the prior year. -/
def matchesFiscalYear (periodEnd : String) (fiscalYear : Int) : Bool :=
  match parseYmd periodEnd with
  | none => false
  | some (y, m) =>
    let guessed : Int := if m ≤ 6 then (y : Int) - 1 else (y : Int)
    fiscalYear = (y : Int) || fiscalYear = guessed

def DOC_TYPE_CODES : List String := ["120", "130"]

/-- The per-document filter of the `find_latest_annual_filing` scan. -/
def keepDoc (edinetCode : String) (fiscalYear : Option Int)
    (periodEndYear periodEndMonth : Option Nat) (doc : Json) : Bool :=
  DOC_TYPE_CODES.contains (strOrEmpty (doc.get "docTypeCode"))
  && strOrEmpty (doc.get "edinetCode") = edinetCode
  && (match periodEndYear, periodEndMonth with
      | some y, some m => matchesPeriodEnd (strOrEmpty (doc.get "periodEnd")) y m
      | _, _ => true)
  && (match fiscalYear with
      | some fy => matchesFiscalYear (strOrEmpty (doc.get "periodEnd")) fy
      | none => true)

/-- The candidate documents collected over the clamped backward day scan
(`dayDocs` models the per-offset result of `get_documents_for_date`). -/
def filingCandidates (dayDocs : Nat → List Json) (lookbackDays : Nat)
    (edinetCode : String) (fiscalYear : Option Int)
    (periodEndYear periodEndMonth : Option Nat) : List Json :=
  ((List.range (max 7 (min 3650 lookbackDays))).map
    (fun offset => (dayDocs offset).filter
      (keepDoc edinetCode fiscalYear periodEndYear periodEndMonth))).flatten

/-- Stable insertion step of the descending sort by `_doc_sort_key`. -/
def insertDocDesc (key : Json → String) (d : Json) : List Json → List Json
  | [] => [d]
  | x :: xs =>
    if pyStrLt (key d) (key x) then x :: insertDocDesc key d xs else d :: x :: xs

/-- `candidates.sort(key=self._doc_sort_key, reverse=True)`: stable
descending sort (stable sorting is extensionally unique, so insertion
sort models Python's sort). -/
def sortByKeyDesc (key : Json → String) : List Json → List Json
  | [] => []
  | x :: xs => insertDocDesc key x (sortByKeyDesc key xs)

structure FilingMatch where
  doc_id : String
  doc_type_code : String
  submit_datetime : String
  filer_name : String
  period_end : Option String
  deriving DecidableEq

/-- `str(a or b or "")`. -/
def strOr2 (a b : Option Json) : String :=
  match a with
  | some v => if pyTruthy v then pyStr v else strOrEmpty b
  | none => strOrEmpty b

/-- The `FilingMatch(...)` constructed from the top candidate. -/
def mkFilingMatch (companyName : String) (top : Json) : FilingMatch :=
  ⟨strOrEmpty (top.get "docID"),
    strOrEmpty (top.get "docTypeCode"),
    strOr2 (top.get "submitDateTime") (top.get "submitDate"),
    (match top.get "filerName" with
     | some v => if pyTruthy v then pyStr v else companyName
     | none => companyName),
    (if strOrEmpty (top.get "periodEnd") = "" then none
     else some (strOrEmpty (top.get "periodEnd")))⟩

/-- `find_latest_annual_filing`. -/
def findLatestAnnualFiling (dayDocs : Nat → List Json) (lookbackDays : Nat)
    (edinetCode companyName : String) (fiscalYear : Option Int)
    (periodEndYear periodEndMonth : Option Nat) : Option FilingMatch :=
  match sortByKeyDesc docSortKey
      (filingCandidates dayDocs lookbackDays edinetCode fiscalYear
        periodEndYear periodEndMonth) with
  | [] => none
  | top :: _ => some (mkFilingMatch companyName top)

/-- Two sample filings of the same organization and type code with
different submission timestamps. -/
def sampleFilingOld : Json :=
  Json.obj [("docID", Json.str "D1"), ("docTypeCode", Json.str "120"),
    ("edinetCode", Json.str "E00001"), ("submitDateTime", Json.str "2024-06-28 15:00"),
    ("filerName", Json.str "Example Co"), ("periodEnd", Json.str "2024-03-31")]

def sampleFilingNew : Json :=
  Json.obj [("docID", Json.str "D2"), ("docTypeCode", Json.str "120"),
    ("edinetCode", Json.str "E00001"), ("submitDateTime", Json.str "2024-06-29 09:00"),
    ("filerName", Json.str "Example Co"), ("periodEnd", Json.str "2024-03-31")]

def sampleDayDocs : Nat → List Json :=
  fun offset => if offset = 0 then [sampleFilingNew, sampleFilingOld] else []

theorem mem_insertDocDesc (key : Json → String) (d : Json) :
    ∀ (l : List Json) (y : Json), y ∈ insertDocDesc key d l → y = d ∨ y ∈ l := by
  intro l
  induction l with
  | nil => intro y hy; simp [insertDocDesc] at hy; exact Or.inl hy
  | cons x xs ih =>
    intro y hy
    rw [insertDocDesc] at hy
    split at hy
    · simp only [List.mem_cons] at hy
      cases hy with
      | inl h => exact Or.inr (by simp [h])
      | inr h =>
        cases ih y h with
        | inl h' => exact Or.inl h'
        | inr h' => exact Or.inr (List.mem_cons_of_mem x h')
    · simp only [List.mem_cons] at hy
      cases hy with
      | inl h => exact Or.inl h
      | inr h => exact Or.inr (by simpa using h)

theorem mem_sortByKeyDesc (key : Json → String) :
    ∀ (l : List Json) (y : Json), y ∈ sortByKeyDesc key l → y ∈ l := by
  intro l
  induction l with
  | nil => intro y hy; simp [sortByKeyDesc] at hy
  | cons x xs ih =>
    intro y hy
    rw [sortByKeyDesc] at hy
    cases mem_insertDocDesc key x (sortByKeyDesc key xs) y hy with
    | inl h => simp [h]
    | inr h => exact List.mem_cons_of_mem x (ih y h)

/-- A strictly-maximal-key element heads the descending sort. -/
theorem sortByKeyDesc_max_head (key : Json → String) :
    ∀ (l : List Json) (dStar : Json), dStar ∈ l →
      (∀ d ∈ l, d ≠ dStar → pyStrLt (key d) (key dStar) = true) →
      ∃ rest, sortByKeyDesc key l = dStar :: rest := by
  intro l
  induction l with
  | nil => intro dStar hmem; cases hmem
  | cons x xs ih =>
    intro dStar hmem hmax
    by_cases hx : x = dStar
    · subst hx
      rw [sortByKeyDesc]
      cases hs : sortByKeyDesc key xs with
      | nil => exact ⟨[], by rw [insertDocDesc]⟩
      | cons y ys =>
        have hymem : y ∈ xs := mem_sortByKeyDesc key xs y (by rw [hs]; simp)
        have hnlt : pyStrLt (key x) (key y) = false := by
          by_cases hyx : y = x
          · subst hyx
            exact listLt_irrefl _
          · exact listLt_asymm _ _ (hmax y (List.mem_cons_of_mem x hymem) hyx)
        rw [insertDocDesc, if_neg (by rw [hnlt]; simp)]
        exact ⟨y :: ys, rfl⟩
    · have hdm : dStar ∈ xs := by
        cases hmem with
        | head => exact absurd rfl hx
        | tail _ h => exact h
      obtain ⟨rest, hrest⟩ :=
        ih dStar hdm (fun d hd hne => hmax d (List.mem_cons_of_mem x hd) hne)
      rw [sortByKeyDesc, hrest]
      rw [insertDocDesc,
        if_pos (hmax x (List.mem_cons_self x xs) hx)]
      exact ⟨insertDocDesc key x rest, rfl⟩

/-- C7: Whenever several documents pass the filters — sharing a type code
but with pairwise-distinct submission-timestamp sort keys — the filing
returned is the one built from the document whose sort key is
lexicographically greatest. -/
theorem find_latest_annual_filing_picks_latest
    (dayDocs : Nat → List Json) (lookbackDays : Nat)
    (edinetCode companyName : String) (fiscalYear : Option Int)
    (periodEndYear periodEndMonth : Option Nat) (tc : String) (dStar : Json)
    (hmem : dStar ∈ filingCandidates dayDocs lookbackDays edinetCode fiscalYear
        periodEndYear periodEndMonth)
    (hmulti : 2 ≤ (filingCandidates dayDocs lookbackDays edinetCode fiscalYear
        periodEndYear periodEndMonth).length)
    (htype : ∀ d ∈ filingCandidates dayDocs lookbackDays edinetCode fiscalYear
        periodEndYear periodEndMonth, strOrEmpty (d.get "docTypeCode") = tc)
    (hmax : ∀ d ∈ filingCandidates dayDocs lookbackDays edinetCode fiscalYear
        periodEndYear periodEndMonth, d ≠ dStar →
        pyStrLt (docSortKey d) (docSortKey dStar) = true) :
    findLatestAnnualFiling dayDocs lookbackDays edinetCode companyName fiscalYear
        periodEndYear periodEndMonth = some (mkFilingMatch companyName dStar) := by
  obtain ⟨rest, hrest⟩ := sortByKeyDesc_max_head docSortKey _ dStar hmem hmax
  unfold findLatestAnnualFiling
  rw [hrest]

theorem find_latest_annual_filing_picks_latest_witness :
    findLatestAnnualFiling sampleDayDocs 7 "E00001" "Example Co" none none none
      = some (mkFilingMatch "Example Co" sampleFilingNew) := by
  have hc : filingCandidates sampleDayDocs 7 "E00001" none none none
      = [sampleFilingNew, sampleFilingOld] := rfl
  apply find_latest_annual_filing_picks_latest sampleDayDocs 7 "E00001" "Example Co"
    none none none "120" sampleFilingNew
  · rw [hc]
    exact List.mem_cons_self _ _
  · rw [hc]
    simp
  · rw [hc]
    intro d hd
    simp only [List.mem_cons, List.not_mem_nil, or_false] at hd
    cases hd with
    | inl h => subst h; rfl
    | inr h => subst h; rfl
  · rw [hc]
    intro d hd hne
    simp only [List.mem_cons, List.not_mem_nil, or_false] at hd
    cases hd with
    | inl h => exact absurd h hne
    | inr h => subst h; decide

end DocumentsRepo

/-! ### Skill entry gate (`skill.py`, `run` and
`_extract_explicit_edinet_codes`)

`run` first checks the API credential, then requires explicit EDINET
codes in the user text; without them it returns a fixed usage message and
never reaches section routing, organization resolution or the document
search.  The regex scans are embedded as character scanners; the fuel
arguments equal the scanned length, which the scans cannot exceed. -/

namespace Skill

/-- A match of `E\d{5}` (case-insensitive) at the head of the list:
the six matched characters and the remainder. -/
def matchE5 : List Char → Option (List Char × List Char)
  | c :: d1 :: d2 :: d3 :: d4 :: d5 :: rest =>
    if (c = 'E' || c = 'e') && ([d1, d2, d3, d4, d5] : List Char).all Char.isDigit then
      some ([c, d1, d2, d3, d4, d5], rest)
    else none
  | _ => none

/-- `re.findall(r"E\d{5}", s, re.IGNORECASE)`: leftmost, non-overlapping. -/
def findallE5 : Nat → List Char → List (List Char)
  | 0, _ => []
  | _ + 1, [] => []
  | n + 1, c :: rest =>
    match matchE5 (c :: rest) with
    | some (m, after) => m :: findallE5 n after
    | none => findallE5 n rest

/-- Whether `E\d{5}` matches anywhere (a substring match exists). -/
def hasE5Sub : List Char → Bool
  | [] => false
  | c :: rest => (matchE5 (c :: rest)).isSome || hasE5Sub rest

/-- Python `\w` (word character) for the boundary checks: ASCII letters,
digits and underscore; code points ≥ 0x80 stand for the Unicode word
characters of the Japanese text the skill handles (the claims' theorems
never depend on a boundary decision). -/
def isWordChar (c : Char) : Bool :=
  c.isAlphanum || c = '_' || 0x80 ≤ c.toNat

/-- `re.findall(r"\bE\d{5}\b", s, re.IGNORECASE)`: as `findallE5`, but a
match needs a non-word character (or an edge) on both sides.  `prev` is
the character before the scan position; after a successful match the
character before the continuation is the match's last digit, for which
any digit stands in. -/
def findallE5Bounded : Nat → Option Char → List Char → List (List Char)
  | 0, _, _ => []
  | _ + 1, _, [] => []
  | n + 1, prev, c :: rest =>
    match matchE5 (c :: rest) with
    | some (m, after) =>
      if (match prev with | none => true | some p => !isWordChar p)
          && (match after with | [] => true | a :: _ => !isWordChar a) then
        m :: findallE5Bounded n (some '0') after
      else findallE5Bounded n (some c) rest
    | none => findallE5Bounded n (some c) rest

/-- `re.findall(r"\[([^\]]+)\]", s)`: bracketed segments, leftmost and
non-overlapping, each with at least one non-`]` character inside. -/
def bracketSegments : Nat → List Char → List (List Char)
  | 0, _ => []
  | _ + 1, [] => []
  | n + 1, c :: rest =>
    if c = '[' then
      let content := rest.takeWhile (fun x => x ≠ ']')
      match rest.dropWhile (fun x => x ≠ ']') with
      | _ :: afterClose =>
        -- the dropped head is necessarily the closing `]` where the scan stopped
        if content.isEmpty then bracketSegments n rest
        else content :: bracketSegments n afterClose
      | [] => bracketSegments n rest
    else bracketSegments n rest

/-- Uppercase then append if unseen (`code not in codes`). -/
def accumCodes (acc : List String) (m : List Char) : List String :=
  let code := String.mk (m.map Char.toUpper)
  if acc.contains code then acc else acc ++ [code]

/-- `_extract_explicit_edinet_codes`: codes inside bracketed segments
take priority; only when none exists is the bare word-bounded scan
consulted. -/
def extractExplicitEdinetCodes (text : String) : List String :=
  let segs := bracketSegments text.data.length text.data
  let bracketCodes :=
    (segs.map (fun seg => findallE5 seg.length seg)).flatten.foldl accumCodes []
  if !bracketCodes.isEmpty then bracketCodes
  else (findallE5Bounded text.data.length none text.data).foldl accumCodes []

/-- The fixed configuration-error message of `run`. -/
def apiKeyMissingMessage : String :=
  "EDINET APIキーが未設定です。`EDINET_API_KEY` を `.env` に設定してください。"

/-- The fixed usage-instruction message of `run`, asking for bracketed
EDINET codes. -/
def usageMessage : String :=
  "企業指定はEDINETコードで入力してください。形式: `[E00001, E12345]`\n例: `[E02144, E01777] の事業等のリスクを比較して`"

/-- The two early returns of `run` before any pipeline work.  `proceed`
carries the explicit codes with which `run` goes on to section routing,
resolution and the document search — the work the early returns skip. -/
inductive RunGate where
  | earlyReturn (message : String)
  | proceed (codes : List String)
  deriving DecidableEq

/-- The head of `run`: missing credential, then the explicit-code
requirement. -/
def runGate (apiKey : String) (userText : String) : RunGate :=
  if pyStrip apiKey = "" then .earlyReturn apiKeyMissingMessage
  else match extractExplicitEdinetCodes userText with
  | [] => .earlyReturn usageMessage
  | codes => .proceed codes

theorem matchE5_isSome_append (s post : List Char)
    (h : (matchE5 s).isSome = true) : (matchE5 (s ++ post)).isSome = true := by
  match s with
  | c :: d1 :: d2 :: d3 :: d4 :: d5 :: rest =>
    simp only [matchE5] at h ⊢
    split at h
    case _ hc => rw [List.cons_append, List.cons_append, List.cons_append,
      List.cons_append, List.cons_append, List.cons_append]
                 simp only [matchE5]
                 rw [if_pos hc]
                 rfl
    case _ => simp at h
  | [] => simp [matchE5] at h
  | [c] => simp [matchE5] at h
  | [c, d1] => simp [matchE5] at h
  | [c, d1, d2] => simp [matchE5] at h
  | [c, d1, d2, d3] => simp [matchE5] at h
  | [c, d1, d2, d3, d4] => simp [matchE5] at h

theorem hasE5Sub_append_right : ∀ (l post : List Char),
    hasE5Sub l = true → hasE5Sub (l ++ post) = true := by
  intro l post
  induction l with
  | nil => intro h; simp [hasE5Sub] at h
  | cons c rest ih =>
    intro h
    rw [hasE5Sub] at h
    rw [List.cons_append, hasE5Sub]
    rcases Bool.or_eq_true_iff.mp h with h1 | h2
    · have h3 := matchE5_isSome_append (c :: rest) post h1
      rw [List.cons_append] at h3
      rw [h3, Bool.true_or]
    · rw [ih h2, Bool.or_true]

theorem hasE5Sub_append_left : ∀ (pre l : List Char),
    hasE5Sub l = true → hasE5Sub (pre ++ l) = true := by
  intro pre l h
  induction pre with
  | nil => simpa using h
  | cons c rest ih =>
    rw [List.cons_append, hasE5Sub, ih]
    simp

/-- No `E\d{5}` in the whole text means none in any contiguous part. -/
theorem hasE5Sub_within (l1 l2 : List Char) (hinf : l1 <:+: l2)
    (h : hasE5Sub l2 = false) : hasE5Sub l1 = false := by
  by_contra hx
  have hx' : hasE5Sub l1 = true := by simpa using hx
  obtain ⟨pre, post, rfl⟩ := hinf
  have h2 := hasE5Sub_append_left pre (l1 ++ post) (hasE5Sub_append_right l1 post hx')
  rw [List.append_assoc] at h
  rw [h] at h2
  cases h2

theorem findallE5_nil_of_no_sub : ∀ (fuel : Nat) (cs : List Char),
    hasE5Sub cs = false → findallE5 fuel cs = [] := by
  intro fuel
  induction fuel with
  | zero => intro cs _; rfl
  | succ n ih =>
    intro cs h
    cases cs with
    | nil => rfl
    | cons c rest =>
      rw [hasE5Sub, Bool.or_eq_false_iff] at h
      rw [findallE5]
      cases hm : matchE5 (c :: rest) with
      | some m => rw [hm] at h; simp at h
      | none => exact ih rest h.2

theorem findallE5Bounded_nil_of_no_sub : ∀ (fuel : Nat) (prev : Option Char)
    (cs : List Char), hasE5Sub cs = false → findallE5Bounded fuel prev cs = [] := by
  intro fuel
  induction fuel with
  | zero => intro prev cs _; rfl
  | succ n ih =>
    intro prev cs h
    cases cs with
    | nil => rfl
    | cons c rest =>
      rw [hasE5Sub, Bool.or_eq_false_iff] at h
      cases hm : matchE5 (c :: rest) with
      | some m => rw [hm] at h; simp at h
      | none =>
        simp only [findallE5Bounded, hm]
        exact ih (some c) rest h.2

/-- Every bracketed segment is a contiguous part of the scanned text. -/
theorem bracketSegments_within : ∀ (fuel : Nat) (cs seg : List Char),
    seg ∈ bracketSegments fuel cs → seg <:+: cs := by
  intro fuel
  induction fuel with
  | zero => intro cs seg h; simp [bracketSegments] at h
  | succ n ih =>
    intro cs seg h
    cases cs with
    | nil => simp [bracketSegments] at h
    | cons c rest =>
      rw [bracketSegments] at h
      have hrest_inf : ∀ s : List Char, s <:+: rest → s <:+: c :: rest := by
        intro s hs
        exact hs.trans (List.infix_cons (List.infix_refl rest))
      by_cases hc : c = '['
      · rw [if_pos hc] at h
        cases hafter : rest.dropWhile (fun x : Char => x ≠ ']') with
        | nil =>
          rw [hafter] at h
          exact hrest_inf seg (ih rest seg h)
        | cons a afterClose =>
          rw [hafter] at h
          by_cases hcont : (rest.takeWhile (fun x : Char => x ≠ ']')).isEmpty = true
          · simp only [hcont, if_true] at h
            exact hrest_inf seg (ih rest seg h)
          · simp only [hcont, if_false, Bool.false_eq_true, List.mem_cons] at h
            cases h with
            | inl hseg =>
              subst hseg
              exact hrest_inf _ (List.IsPrefix.isInfix (List.takeWhile_prefix _))
            | inr hseg =>
              have hsuffix : afterClose <:+ rest := by
                have h1 : rest.dropWhile (fun x : Char => x ≠ ']') <:+ rest :=
                  List.dropWhile_suffix _
                rw [hafter] at h1
                exact (List.suffix_cons a afterClose).trans h1
              exact hrest_inf seg ((ih afterClose seg hseg).trans hsuffix.isInfix)
      · rw [if_neg hc] at h
        exact hrest_inf seg (ih rest seg h)

theorem flatten_eq_nil_of_forall {α : Type} (L : List (List α))
    (h : ∀ l ∈ L, l = []) : L.flatten = [] := by
  induction L with
  | nil => rfl
  | cons x xs ih =>
    rw [List.flatten_cons, h x (List.mem_cons_self x xs), List.nil_append]
    exact ih (fun l hl => h l (List.mem_cons_of_mem x hl))

/-- C9: With the API credential configured, any user text containing no
substring matching `E` followed by five digits (case-insensitive) makes
`run` return the fixed usage-instruction message asking for bracketed
EDINET codes: the `proceed` branch — the only one that goes on to intent
parsing/section routing, organization resolution and the document
search — is not taken. -/
theorem run_usage_message_without_codes (apiKey userText : String)
    (hkey : pyStrip apiKey ≠ "")
    (hnone : hasE5Sub userText.data = false) :
    runGate apiKey userText = .earlyReturn usageMessage := by
  unfold runGate
  rw [if_neg hkey]
  have hempty : extractExplicitEdinetCodes userText = [] := by
    unfold extractExplicitEdinetCodes
    have hflat : ((bracketSegments userText.data.length userText.data).map
        (fun seg => findallE5 seg.length seg)).flatten = [] := by
      apply flatten_eq_nil_of_forall
      intro l hl
      obtain ⟨seg, hseg, rfl⟩ := List.mem_map.mp hl
      exact findallE5_nil_of_no_sub _ _
        (hasE5Sub_within seg userText.data (bracketSegments_within _ _ _ hseg) hnone)
    simp only [hflat, findallE5Bounded_nil_of_no_sub _ none _ hnone]
    rfl
  rw [hempty]

theorem run_usage_message_without_codes_witness :
    runGate "key" "トヨタ自動車とホンダの事業等のリスクを比較して"
      = RunGate.earlyReturn usageMessage :=
  run_usage_message_without_codes "key" "トヨタ自動車とホンダの事業等のリスクを比較して"
    (by decide) (by decide)

end Skill

/-! ### Intent parser (`intent_parser.py`)

`parse` first tries the language-model path (`_parse_by_llm`); any
transport failure, missing model or non-JSON reply makes it fall back to
the deterministic rules (`_parse_by_rules`).  The model call is embedded
as a parameter: `llmResult` is the JSON object extracted from the model's
reply (`none` when the call failed, no model is configured, or no object
was found).  The regex scans are embedded as character scanners with
fuel equal to the scanned length. -/

namespace IntentParser

open DocumentsRepo (Json pyStr pyTruthy digitsToNat)

structure ParsedIntent where
  companies : List String
  fiscal_year : Option Int
  report_periods : List (Int × Int)
  sections : List String
  needs_clarification : Bool
  clarification_reason : String
  source : String
  deriving DecidableEq

/-- `_norm_text` of `intent_parser.py` — textually identical to
`company_resolver.py`'s. -/
def normText (text : String) : String := CompanyResolver.normText text

/-- Python regex `\s` (whitespace fragment: ASCII whitespace and the
ideographic space of the Japanese inputs). -/
def reWs (c : Char) : Bool := pyWhitespace c || c.toNat = 0x3000

/-- The stopword set of `_extract_company_tokens`. -/
def stopwords : List String :=
  ["有価証券報告書", "有報", "edinet", "api", "xbrl", "会社", "企業", "質問",
   "分析", "について", "教えて", "調べて", "見て", "して", "ください"]

/-- The suffix alternation of the company-like pattern, in regex order. -/
def companySuffixes : List String :=
  ["株式会社", "ホールディングス", "グループ", "HD", "自動車"]

/-- The character class `[一-龥ぁ-んァ-ヶA-Za-z0-9・ー＆&\-]`. -/
def companyClassChar (c : Char) : Bool :=
  (0x4E00 ≤ c.toNat && c.toNat ≤ 0x9FA5)
  || (0x3041 ≤ c.toNat && c.toNat ≤ 0x3093)
  || (0x30A1 ≤ c.toNat && c.toNat ≤ 0x30F6)
  || ('A' ≤ c && c ≤ 'Z') || ('a' ≤ c && c ≤ 'z') || ('0' ≤ c && c ≤ '9')
  || c = '・' || c = 'ー' || c = '＆' || c = '&' || c = '-'

def findCompanySuffix (cs : List Char) : Option (List Char × List Char) :=
  match companySuffixes.find? (fun sfx => listStartsWith sfx.data cs) with
  | some sfx => some (sfx.data, cs.drop sfx.data.length)
  | none => none

/-- The lazy `+?` expansion of the company-like pattern at one start
position: after each class character consumed (at least one), the suffix
alternation is tried first. -/
def companyLikeFrom : Nat → List Char → List Char → Option (List Char × List Char)
  | 0, _, _ => none
  | n + 1, takenRev, rest =>
    if takenRev.isEmpty then
      match rest with
      | c :: t => if companyClassChar c then companyLikeFrom n [c] t else none
      | [] => none
    else
      match findCompanySuffix rest with
      | some (sfx, after) => some (takenRev.reverse ++ sfx, after)
      | none =>
        match rest with
        | c :: t => if companyClassChar c then companyLikeFrom n (c :: takenRev) t else none
        | [] => none

/-- `re.findall` of the company-like pattern: leftmost, lazily shortest,
non-overlapping. -/
def companyLikeFindall : Nat → List Char → List (List Char)
  | 0, _ => []
  | _ + 1, [] => []
  | n + 1, c :: rest =>
    match companyLikeFrom ((c :: rest).length + 1) [] (c :: rest) with
    | some (m, after) => m :: companyLikeFindall n after
    | none => companyLikeFindall n rest

/-- The delimiter alternation of `re.split(r"[、,\n]|と|および|及び|ならびに",
·)` at one position, in regex order, with its match length. -/
def splitDelimLen (cs : List Char) : Option Nat :=
  match cs with
  | [] => none
  | c :: _ =>
    if c = '、' || c = ',' || c = '\n' then some 1
    else if c = 'と' then some 1
    else if listStartsWith "および".data cs then some 3
    else if listStartsWith "及び".data cs then some 2
    else if listStartsWith "ならびに".data cs then some 4
    else none

/-- `re.split` over that alternation. -/
def splitParts : Nat → List Char → List Char → List (List Char)
  | 0, acc, _ => [acc.reverse]
  | _ + 1, acc, [] => [acc.reverse]
  | n + 1, acc, c :: rest =>
    match splitDelimLen (c :: rest) with
    | some k => acc.reverse :: splitParts n [] (List.drop k (c :: rest))
    | none => splitParts n (c :: acc) rest

/-- A match of `証券コード\s*[:：]?\s*(\d{4})` at the head: the captured
four digits and the remainder after the full match. -/
def matchShokenCode (cs : List Char) : Option (List Char × List Char) :=
  if listStartsWith "証券コード".data cs then
    let rest1 := (cs.drop 5).dropWhile reWs
    let rest2 := match rest1 with
      | c :: t => if c = ':' || c = '：' then t else rest1
      | [] => rest1
    let rest3 := rest2.dropWhile reWs
    match rest3 with
    | d1 :: d2 :: d3 :: d4 :: after =>
      if ([d1, d2, d3, d4] : List Char).all Char.isDigit then some ([d1, d2, d3, d4], after)
      else none
    | _ => none
  else none

def findallShoken : Nat → List Char → List (List Char)
  | 0, _ => []
  | _ + 1, [] => []
  | n + 1, c :: rest =>
    match matchShokenCode (c :: rest) with
    | some (m, after) => m :: findallShoken n after
    | none => findallShoken n rest

/-- The keyword alternation of `_trim_non_company_suffix`. -/
def trimKeywords : List String :=
  ["事業", "リスク", "比較", "分析", "業績", "強み", "弱み", "課題", "概要",
   "状況", "について"]

def trimKeywordAt (cs : List Char) : Bool :=
  trimKeywords.any (fun k => listStartsWith k.data cs)

/-- `(の)?(keyword)` at one position: the optional `の` is tried first,
then the bare keyword (no keyword starts with `の`). -/
def trimMatchAt (cs : List Char) : Bool :=
  (match cs with
   | 'の' :: rest => trimKeywordAt rest
   | _ => false) || trimKeywordAt cs

def trimScan : List Char → List Char
  | [] => []
  | c :: rest => if trimMatchAt (c :: rest) then [] else c :: trimScan rest

/-- `_trim_non_company_suffix`: cut from the leftmost keyword (optionally
preceded by `の`) to the end, then strip.  The `.*$` tail consumes to the
end of the part; the parts this runs on contain no newline (the split
treats `\n` as a delimiter), where `$` without MULTILINE is exact. -/
def trimNonCompanySuffix (text : String) : String :=
  pyStrip (String.mk (trimScan text.data))

/-- The `.strip("。.!?()（）[]「」『』\"'")` character set. -/
def cleanStripSet : List Char := "。.!?()（）[]「」『』\"'".data

def pyStripSet (set : List Char) (cs : List Char) : List Char :=
  ((cs.dropWhile (fun c => set.contains c)).reverse.dropWhile
    (fun c => set.contains c)).reverse

/-- `re.sub(r"^(と|および|及び|ならびに)", "", ·)`: one leading connective
removed, alternation in regex order. -/
def dropLeadingConnective (cs : List Char) : List Char :=
  if listStartsWith "と".data cs then cs.drop 1
  else if listStartsWith "および".data cs then cs.drop 3
  else if listStartsWith "及び".data cs then cs.drop 2
  else if listStartsWith "ならびに".data cs then cs.drop 4
  else cs

/-- `re.sub(r"^証券コード\s*[:：]?\s*", "", ·)`. -/
def dropLeadingShoken (cs : List Char) : List Char :=
  if listStartsWith "証券コード".data cs then
    let rest1 := (cs.drop 5).dropWhile reWs
    let rest2 := match rest1 with
      | c :: t => if c = ':' || c = '：' then t else rest1
      | [] => rest1
    rest2.dropWhile reWs
  else cs

/-- `_clean_company_token`. -/
def cleanCompanyToken (text : String) : Option String :=
  let c1 := stripChars text.data
  let c2 := pyStripSet cleanStripSet c1
  let c3 := stripChars (dropLeadingConnective c2)
  let c4 := stripChars (dropLeadingShoken c3)
  if c4.isEmpty || c4.length ≤ 1 || 80 < c4.length then none
  else some (String.mk c4)

/-- `_extract_company_tokens`: explicit EDINET codes, secondary codes,
delimiter-split tokens (trimmed, cleaned, stopword-filtered), then
suffix-bearing company-like names, deduplicated in order. -/
def extractCompanyTokens (text : String) : List String :=
  let cs := text.data
  let t1 := (Skill.findallE5 cs.length cs).foldl
    (fun acc m =>
      let code := String.mk (m.map Char.toUpper)
      if acc.contains code then acc else acc ++ [code]) []
  let t2 := (findallShoken cs.length cs).foldl
    (fun acc m =>
      let code := String.mk m
      if acc.contains code then acc else acc ++ [code]) t1
  let t3 := (splitParts cs.length [] cs).foldl
    (fun acc part =>
      match cleanCompanyToken (trimNonCompanySuffix (String.mk part)) with
      | none => acc
      | some cleaned =>
        if stopwords.contains (normText cleaned) then acc
        else if acc.contains cleaned then acc else acc ++ [cleaned]) t2
  (companyLikeFindall cs.length cs).foldl
    (fun acc m =>
      match cleanCompanyToken (String.mk m) with
      | none => acc
      | some cleaned => if acc.contains cleaned then acc else acc ++ [cleaned]) t3

/-- A match of `(20\d{2})` at the head: the year value and remainder. -/
def match20xx (cs : List Char) : Option (Nat × List Char) :=
  match cs with
  | '2' :: '0' :: d1 :: d2 :: rest =>
    if d1.isDigit && d2.isDigit then some (digitsToNat ['2', '0', d1, d2], rest)
    else none
  | _ => none

/-- Greedy `(\d{1,2})` followed by a continuation, with the regex
backtracking from two digits to one. -/
def takeMonth (cs : List Char) (cont : List Char → Option (List Char)) :
    Option (Nat × List Char) :=
  match cs with
  | d1 :: d2 :: rest =>
    if d1.isDigit then
      if d2.isDigit then
        match cont rest with
        | some after => some (digitsToNat [d1, d2], after)
        | none =>
          match cont (d2 :: rest) with
          | some after => some (digitsToNat [d1], after)
          | none => none
      else
        match cont (d2 :: rest) with
        | some after => some (digitsToNat [d1], after)
        | none => none
    else none
  | [d1] =>
    if d1.isDigit then
      match cont [] with
      | some after => some (digitsToNat [d1], after)
      | none => none
    else none
  | [] => none

/-- `\s*月期`. -/
def contGekki (cs : List Char) : Option (List Char) :=
  let r := cs.dropWhile reWs
  if listStartsWith "月期".data r then some (r.drop 2) else none

/-- `\s*期`. -/
def contKi (cs : List Char) : Option (List Char) :=
  let r := cs.dropWhile reWs
  if listStartsWith "期".data r then some (r.drop 1) else none

/-- `(?!\d)`: a consuming-nothing check that no digit follows. -/
def contNoDigit (cs : List Char) : Option (List Char) :=
  match cs with
  | c :: _ => if c.isDigit then none else some cs
  | [] => some cs

/-- `\s*<sep>\s*`. -/
def sepThen (sep : Char) (cs : List Char) : Option (List Char) :=
  match cs.dropWhile reWs with
  | c :: t => if c = sep then some (t.dropWhile reWs) else none
  | [] => none

/-- One period pattern `(20\d{2}) <sep> (\d{1,2}) <cont>` at the head. -/
def matchPeriodWith (sepCheck : List Char → Option (List Char))
    (cont : List Char → Option (List Char)) (cs : List Char) :
    Option ((Nat × Nat) × List Char) :=
  match match20xx cs with
  | none => none
  | some (year, r1) =>
    match sepCheck r1 with
    | none => none
    | some r2 =>
      match takeMonth r2 cont with
      | some (month, after) => some ((year, month), after)
      | none => none

def findallPeriod (matcher : List Char → Option ((Nat × Nat) × List Char)) :
    Nat → List Char → List (Nat × Nat)
  | 0, _ => []
  | _ + 1, [] => []
  | n + 1, c :: rest =>
    match matcher (c :: rest) with
    | some (ym, after) => ym :: findallPeriod matcher n after
    | none => findallPeriod matcher n rest

/-- `_extract_period_specs`: the five explicit-period patterns in order
over the NFKC-normalized text, bounds-checked and deduplicated. -/
def extractPeriodSpecs (text : String) : List (Int × Int) :=
  let cs := (nfkc text).data
  let n := cs.length
  let all := findallPeriod (matchPeriodWith (sepThen '年') contGekki) n cs
    ++ findallPeriod (matchPeriodWith (sepThen '/') contKi) n cs
    ++ findallPeriod (matchPeriodWith (sepThen '-') contKi) n cs
    ++ findallPeriod (matchPeriodWith (sepThen '.') contKi) n cs
    ++ findallPeriod (matchPeriodWith (sepThen '/') contNoDigit) n cs
  all.foldl (fun acc ym =>
    if ym.1 < 1990 || 2100 < ym.1 || ym.2 < 1 || 12 < ym.2 then acc
    else if acc.contains ((ym.1 : Int), (ym.2 : Int)) then acc
    else acc ++ [((ym.1 : Int), (ym.2 : Int))]) []

/-- `re.search`: the year of the leftmost match of one fiscal-year
pattern. -/
def searchYear (matcher : List Char → Option Nat) : Nat → List Char → Option Nat
  | 0, _ => none
  | _ + 1, [] => none
  | n + 1, c :: rest =>
    match matcher (c :: rest) with
    | some y => some y
    | none => searchYear matcher n rest

/-- `(20\d{2})\s*年度`. -/
def matchNendo (cs : List Char) : Option Nat :=
  match match20xx cs with
  | some (y, r) =>
    if listStartsWith "年度".data (r.dropWhile reWs) then some y else none
  | none => none

/-- `fy\s*(20\d{2})` (the text is lowercased first). -/
def matchFy (cs : List Char) : Option Nat :=
  match cs with
  | 'f' :: 'y' :: rest =>
    match match20xx (rest.dropWhile reWs) with
    | some (y, _) => some y
    | none => none
  | _ => none

/-- `(20\d{2})\s*年`. -/
def matchNen (cs : List Char) : Option Nat :=
  match match20xx cs with
  | some (y, r) =>
    if listStartsWith "年".data (r.dropWhile reWs) then some y else none
  | none => none

/-- `_extract_fiscal_year`: the three patterns in order over the
NFKC-lowercased text; a match outside 1990..2100 falls through to the
next pattern (the `20\d{2}` group in fact never leaves the bounds). -/
def extractFiscalYear (text : String) : Option Int :=
  let cs := (pyLower (nfkc text)).data
  let try1 := match searchYear matchNendo cs.length cs with
    | some y => if 1990 ≤ y && y ≤ 2100 then some y else none
    | none => none
  match try1 with
  | some y => some (y : Int)
  | none =>
    let try2 := match searchYear matchFy cs.length cs with
      | some y => if 1990 ≤ y && y ≤ 2100 then some y else none
      | none => none
    match try2 with
    | some y => some (y : Int)
    | none =>
      match searchYear matchNen cs.length cs with
      | some y => if 1990 ≤ y && y ≤ 2100 then some (y : Int) else none
      | none => none

/-- `\d-\d(?:-\d)?\b` at the head (the left boundary is the caller's);
the optional third component backtracks when its right boundary fails. -/
def matchSecDigits (cs : List Char) : Option (List Char × List Char) :=
  match cs with
  | d1 :: '-' :: d2 :: rest =>
    if d1.isDigit && d2.isDigit then
      match rest with
      | '-' :: d3 :: rest2 =>
        if d3.isDigit
            && (match rest2 with | [] => true | c :: _ => !Skill.isWordChar c) then
          some ([d1, '-', d2, '-', d3], rest2)
        else if (match rest with | [] => true | c :: _ => !Skill.isWordChar c) then
          some ([d1, '-', d2], rest)
        else none
      | _ =>
        if (match rest with | [] => true | c :: _ => !Skill.isWordChar c) then
          some ([d1, '-', d2], rest)
        else none
    else none
  | _ => none

/-- `\d\b` at the head (the left boundary is the caller's). -/
def matchSingleDigit (cs : List Char) : Option (List Char × List Char) :=
  match cs with
  | d :: rest =>
    if d.isDigit && (match rest with | [] => true | c :: _ => !Skill.isWordChar c) then
      some ([d], rest)
    else none
  | [] => none

/-- `re.findall` with a left word-boundary: `prev` is the character
before the position (after a match it is the match's last character, a
digit, for which any digit stands in). -/
def findallBounded (matcher : List Char → Option (List Char × List Char)) :
    Nat → Option Char → List Char → List (List Char)
  | 0, _, _ => []
  | _ + 1, _, [] => []
  | n + 1, prev, c :: rest =>
    match (if (match prev with | none => true | some p => !Skill.isWordChar p) then
        matcher (c :: rest) else none) with
    | some (m, after) => m :: findallBounded matcher n (some '0') after
    | none => findallBounded matcher n (some c) rest

def sectionLiterals : List String :=
  ["事業等のリスク", "サステナビリティ", "経営成績", "キャッシュ・フロー",
   "配当政策", "ガバナンス"]

/-- `_extract_section_tokens`. -/
def extractSectionTokens (text : String) : List String :=
  let cs := text.data
  let hits1 := (findallBounded matchSecDigits cs.length none cs).map String.mk
  let hits2 := (findallBounded matchSingleDigit cs.length none cs).map String.mk
  let hits3 := sectionLiterals.filter (fun lit => pyInStr lit text)
  hits1 ++ hits2 ++ hits3

/-- `[str(item).strip() for item in parsed.get(key, []) if …]` for a
list-shaped (or absent) value; a non-list value would make the Python
comprehension raise, a failure mode outside the claims and not modeled. -/
def jsonStrList (o : Option Json) : List String :=
  match o with
  | some (Json.arr items) =>
    items.filterMap (fun item =>
      let s := pyStrip (pyStr item)
      if s ≠ "" then some s else none)
  | _ => []

/-- The int coercion applied to `fiscal_year` and period fields: a digit
string parses, an int stays (a Python bool is an int: `True` counts 1),
anything else becomes `None`. -/
def jsonToInt (o : Option Json) : Option Int :=
  match o with
  | some (Json.num n) => some n
  | some (Json.str s) =>
    if s ≠ "" && s.data.all Char.isDigit then some ((digitsToNat s.data : Nat) : Int)
    else none
  | some (Json.bool b) => some (if b then 1 else 0)
  | _ => none

/-- `_extract_period_specs_from_json`. -/
def extractPeriodSpecsFromJson (o : Option Json) : List (Int × Int) :=
  match o with
  | some (Json.arr rows) =>
    rows.foldl (fun acc row =>
      match row with
      | Json.obj _ =>
        match jsonToInt (row.get "year"), jsonToInt (row.get "month") with
        | some y, some m =>
          if y < 1990 || 2100 < y || m < 1 || 12 < m then acc
          else if acc.contains (y, m) then acc else acc ++ [(y, m)]
        | _, _ => acc
      | _ => acc) []
  | _ => []

/-- `history[-8:]` filtered to non-empty user turns. -/
def recentUser (history : List (String × String)) : List String :=
  (history.drop (history.length - 8)).filterMap
    (fun item => if item.1 = "user" && item.2 ≠ "" then some item.2 else none)

def joinWith (sep : String) : List String → String
  | [] => ""
  | [s] => s
  | s :: rest => s ++ sep ++ joinWith sep rest

/-- `_parse_by_rules`. -/
def parseByRules (userText : String) (history : List (String × String)) : ParsedIntent :=
  let context := joinWith "\n" (recentUser history)
  let combined := pyStrip (context ++ "\n" ++ userText)
  let companies := extractCompanyTokens combined
  ⟨companies, extractFiscalYear combined, extractPeriodSpecs combined,
    extractSectionTokens userText, companies.isEmpty,
    (if companies.isEmpty then "企業名が抽出できませんでした" else ""), "rule"⟩

/-- `_parse_by_llm`, given the model name from the context and the JSON
object extracted from the model's reply. -/
def parseByLlm (model : String) (llmResult : Option Json) (userText : String)
    (history : List (String × String)) : Option ParsedIntent :=
  if pyStrip model = "" then none
  else match llmResult with
  | none => none
  | some parsed =>
    let recent := recentUser history
    let companies0 := jsonStrList (parsed.get "companies")
    let fiscalYear := jsonToInt (parsed.get "fiscal_year")
    let periods0 := extractPeriodSpecsFromJson (parsed.get "report_periods")
    let reportPeriods := if periods0.isEmpty
      then extractPeriodSpecs (userText ++ "\n" ++ joinWith "\n" recent) else periods0
    let sections := jsonStrList (parsed.get "sections")
    let needsClarification := match parsed.get "needs_clarification" with
      | none => false
      | some v => pyTruthy v
    let reason0 := pyStrip (match parsed.get "clarification_reason" with
      | none => ""
      | some v => if pyTruthy v then pyStr v else "")
    let companies := if companies0.isEmpty
      then extractCompanyTokens (userText ++ "\n" ++ joinWith "\n" recent) else companies0
    let reason := if companies0.isEmpty && !companies.isEmpty && reason0 = ""
      then "LLM抽出が空のため規則抽出を利用" else reason0
    some ⟨companies, fiscalYear, reportPeriods, sections, needsClarification,
      reason, "llm"⟩

/-- `IntentParser.parse`. -/
def parse (model : String) (llmResult : Option Json) (userText : String)
    (history : List (String × String)) : ParsedIntent :=
  match parseByLlm model llmResult userText history with
  | some intent => intent
  | none => parseByRules userText history

/-- C4 counterexample: with a model configured, an LLM reply
`{"companies": [], "needs_clarification": false}` and an empty user text
(so the rule-based fallback extraction also finds no organization),
`parse` returns an intent whose companies list is empty while
`needs_clarification` is `false`: on the LLM path the flag is copied from
the model's JSON, never forced true when no organization was found. -/
theorem parse_needs_clarification_counterexample :
    (parse "gpt-4o" (some (Json.obj
        [("companies", Json.arr []), ("needs_clarification", Json.bool false)]))
        "" []).companies = []
    ∧ (parse "gpt-4o" (some (Json.obj
        [("companies", Json.arr []), ("needs_clarification", Json.bool false)]))
        "" []).needs_clarification = false :=
  ⟨rfl, rfl⟩

/-- C4 amended: on the rule-based path `needs_clarification` is true
exactly when no organization was extracted; on the LLM path the flag is
the one in the model's JSON (absent defaulting to false), regardless of
whether the companies list — even after the rule-based fallback — is
empty. -/
theorem parse_needs_clarification_amended :
    (∀ (userText : String) (history : List (String × String)),
      (parseByRules userText history).needs_clarification
        = (parseByRules userText history).companies.isEmpty)
    ∧ (∀ (model userText : String) (history : List (String × String))
        (parsed : Json) (intent : ParsedIntent),
        parseByLlm model (some parsed) userText history = some intent →
        intent.needs_clarification
          = (match parsed.get "needs_clarification" with
             | none => false
             | some v => pyTruthy v)) := by
  constructor
  · intro userText history
    simp only [parseByRules]
  · intro model userText history parsed intent h
    unfold parseByLlm at h
    by_cases hm : pyStrip model = ""
    · rw [if_pos hm] at h
      cases h
    · rw [if_neg hm] at h
      simp only [Option.some.injEq] at h
      rw [← h]

theorem parse_needs_clarification_amended_witness :
    (⟨[], none, [], [], true, "", "llm"⟩ : ParsedIntent).needs_clarification
      = (match (Json.obj [("needs_clarification", Json.bool true)]).get
            "needs_clarification" with
         | none => false
         | some v => pyTruthy v) :=
  parse_needs_clarification_amended.2 "gpt-4o" "" []
    (Json.obj [("needs_clarification", Json.bool true)])
    ⟨[], none, [], [], true, "", "llm"⟩ rfl

end IntentParser

end EdinetQA
